import Mathlib

/-!
# Verification of the obsidian-smart-workflow configuration / AI subsystem

Shallow embedding of the provider/model/feature-binding configuration manager
(`src/services/config/configManager.ts`), the AI request builder, endpoint
normalizer and response parsing pipeline (`src/services/naming/aiService.ts`),
against the natural-language specification.

Conventions of the embedding:
* TypeScript `X | undefined` becomes `Option X`; JavaScript string truthiness
  (`if (value)`) is rendered explicitly (`""` and `undefined` are falsy).
* The mutable `settings` object becomes explicit state passing: a mutating
  method of `ConfigManager` becomes a function `... → α × Settings` (or
  `Except String Settings` when the method can throw).  An exception leaves
  the caller's state untouched, which the `Except` embedding expresses by the
  error branch carrying no state.
* TypeScript `number` is modelled by `ℚ` (the code performs only comparisons
  and `Number.isInteger` tests on these values; no float rounding is involved).
* Array indices and `currentKeyIndex` are modelled by `ℕ` (the code only ever
  stores loop indices, which are non-negative).
-/

namespace SmartWorkflow

/-- Storage mode of one API-key configuration (`SecretStorageMode`):
`local` keeps the secret inline, `shared` references an external secret by id. -/
inductive SecretStorageMode where
  | local
  | shared
deriving DecidableEq, Repr

/-- One API-key configuration (`KeyConfig`). `secretId` is only meaningful in
`shared` mode, `localValue` only in `local` mode; both are optional fields of
the TypeScript object. -/
structure KeyConfig where
  mode : SecretStorageMode
  secretId : Option String := none
  localValue : Option String := none
deriving DecidableEq, Repr

/-- One model owned by a provider (`ModelConfig`).  The settings type
declaration file is not part of the analysed tree; the fields and their
optionality are taken from the use sites (`configManager.ts`,
`aiService.ts`, `llmPostProcessor.ts`): `temperature`/`topP` are required,
`maxTokens`, `maxOutputTokens`, `apiFormat` and `reasoningEffort` optional. -/
structure ModelConfig where
  id : String
  name : String
  displayName : String
  temperature : ℚ
  topP : ℚ
  maxTokens : Option ℚ := none
  maxOutputTokens : Option ℚ := none
  apiFormat : Option String := none
  reasoningEffort : Option String := none
deriving DecidableEq, Repr

/-- An AI provider (`Provider`): endpoint, credential configuration (legacy
single `keyConfig`, optional list `keyConfigs` with rotation cursor
`currentKeyIndex`) and its owned models. -/
structure Provider where
  id : String
  name : String
  endpoint : String
  keyConfig : Option KeyConfig := none
  keyConfigs : Option (List KeyConfig) := none
  currentKeyIndex : Option Nat := none
  models : List ModelConfig := []
deriving DecidableEq, Repr

/-- The feature names iterated by `resetBindingsForProvider` /
`resetBindingsForModel` (`AIFeature`). -/
inductive AIFeature where
  | naming
  | translation
  | writing
  | tagging
  | categorizing
deriving DecidableEq, Repr

/-- All features, in the order the reset loops visit them. -/
def allFeatures : List AIFeature :=
  [.naming, .translation, .writing, .tagging, .categorizing]

/-- A feature binding (`FeatureBinding`): by-id reference to a provider and
one of its models, plus the prompt template for the feature. -/
structure FeatureBinding where
  providerId : String
  modelId : String
  promptTemplate : String
deriving DecidableEq, Repr

/-- The voice assistant sub-configuration referenced by the provider/model
reset paths (`settings.voice.assistantConfig`). -/
structure AssistantConfig where
  providerId : Option String := none
  modelId : Option String := none
deriving DecidableEq, Repr

/-- The voice sub-settings referenced by the reset paths (`settings.voice`). -/
structure VoiceSettings where
  postProcessingProviderId : Option String := none
  postProcessingModelId : Option String := none
  assistantConfig : Option AssistantConfig := none
deriving DecidableEq, Repr

/-- The slice of `SmartWorkflowSettings` owned by `ConfigManager`.
`featureBindings` (a `Partial<Record<AIFeature, FeatureBinding>>` object
keyed by the closed `AIFeature` union) is modelled as a function to
`Option FeatureBinding`: property access is application, assignment is
`Function.update` with a `some`, `delete` is `Function.update` with
`none`. -/
structure Settings where
  providers : List Provider
  featureBindings : AIFeature → Option FeatureBinding := fun _ => none
  voice : Option VoiceSettings := none

/-- The fully dereferenced result of feature resolution (`ResolvedConfig`). -/
structure ResolvedConfig where
  provider : Provider
  model : ModelConfig
  promptTemplate : String
deriving DecidableEq, Repr

/-- `ConfigManager.getProvider`: first provider with the given id. -/
def getProvider (s : Settings) (id : String) : Option Provider :=
  s.providers.find? (fun p => p.id == id)

/-- `ConfigManager.getModel` helper on one provider:
`provider.models.find(m => m.id === modelId)`. -/
def findModel (p : Provider) (modelId : String) : Option ModelConfig :=
  p.models.find? (fun m => m.id == modelId)

/-- `ConfigManager.getFeatureBinding`: property lookup in the
`featureBindings` object. -/
def getFeatureBinding (s : Settings) (feature : AIFeature) : Option FeatureBinding :=
  s.featureBindings feature

/-- `ConfigManager.resolveFeatureConfig`: dereference the binding; `none` if
the binding is absent or its provider or model no longer exists.  The function
is total by construction (the TypeScript method has no `throw`). -/
def resolveFeatureConfig (s : Settings) (feature : AIFeature) : Option ResolvedConfig :=
  match getFeatureBinding s feature with
  | none => none
  | some binding =>
    match getProvider s binding.providerId with
    | none => none
    | some provider =>
      match findModel provider binding.modelId with
      | none => none
      | some model =>
        some { provider := provider, model := model, promptTemplate := binding.promptTemplate }

/-! ## Credential resolution and rotation

`ConfigManager.resolveKeyValue`, `getApiKey`, `findNextAvailableKey`,
`rotateApiKey`.  The injected `SecretService` collaborator is modelled as an
optional lookup function (`this._secretService` may be absent; `getSecret`
returns `string | null`). -/

/-- The secret-lookup collaborator: `none` when `_secretService` was never
injected. -/
abbrev SecretService := Option (String → Option String)

/-- `ConfigManager.resolveKeyValue`: pure resolution of one key configuration.
`shared` mode needs a non-falsy `secretId` and a wired-up secret service;
`local` mode returns `localValue` verbatim (including the empty string). -/
def resolveKeyValue (svc : SecretService) (keyConfig : Option KeyConfig) : Option String :=
  match keyConfig with
  | none => none
  | some kc =>
    match kc.mode with
    | .shared =>
      match kc.secretId with
      | none => none
      | some sid =>
        if sid = "" then none
        else
          match svc with
          | none => none
          | some getSecret => getSecret sid
    | .local => kc.localValue

/-- JavaScript truthiness filter for key values: the callers of
`resolveKeyValue` test `if (value)`, under which `undefined` and `""` are
both falsy. -/
def truthyVal : Option String → Option String
  | none => none
  | some s => if s = "" then none else some s

/-- Resolution-with-truthiness of the key at position `idx` of `kcs`
(out-of-range access yields `undefined`, hence `none`). -/
def resolveAt (svc : SecretService) (kcs : List KeyConfig) (idx : Nat) : Option String :=
  truthyVal (resolveKeyValue svc kcs[idx]?)

/-- The scan loops of `findNextAvailableKey` (`for i = 0; i < totalKeys; i++`)
and `rotateApiKey` (`for i = 1; i <= totalKeys; i++`): try the offsets in
order, at each offset probe index `(c + i) % n`, and return the first index
whose key resolves to a truthy value together with that value. -/
def scanLoop (res : Nat → Option String) (n c : Nat) : List Nat → Option (Nat × String)
  | [] => none
  | i :: rest =>
    let idx := (c + i) % n
    match res idx with
    | some v => some (idx, v)
    | none => scanLoop res n c rest

/-- `ConfigManager.findNextAvailableKey`: scan all positions starting at
`currentKeyIndex ?? 0` (wrapping), return the first resolvable key, and
persist the new index only when it differs from the starting one. -/
def findNextAvailableKeyP (svc : SecretService) (p : Provider) : Option String × Provider :=
  match p.keyConfigs with
  | none => (none, p)
  | some kcs =>
    if kcs.length = 0 then (none, p)
    else
      let startIndex := p.currentKeyIndex.getD 0
      match scanLoop (resolveAt svc kcs) kcs.length startIndex (List.range kcs.length) with
      | some (idx, v) =>
        if idx = startIndex then (some v, p)
        else (some v, { p with currentKeyIndex := some idx })
      | none => (none, p)

/-- `ConfigManager.getApiKey` on one provider: with a non-empty `keyConfigs`
list, try the key at `currentKeyIndex ?? 0` and fall back to
`findNextAvailableKey`; otherwise resolve the legacy single `keyConfig`. -/
def getApiKeyP (svc : SecretService) (p : Provider) : Option String × Provider :=
  match p.keyConfigs with
  | some kcs =>
    if 0 < kcs.length then
      let index := p.currentKeyIndex.getD 0
      match resolveAt svc kcs index with
      | some v => (some v, p)
      | none => findNextAvailableKeyP svc p
    else (resolveKeyValue svc p.keyConfig, p)
  | none => (resolveKeyValue svc p.keyConfig, p)

/-- `ConfigManager.rotateApiKey` on one provider: with at most one entry in
`keyConfigs` it resolves the legacy `keyConfig` and never rotates; otherwise
it scans forward from one past `currentKeyIndex ?? 0` (wrapping), commits the
first resolvable index and returns its value. -/
def rotateApiKeyP (svc : SecretService) (p : Provider) : Option String × Provider :=
  match p.keyConfigs with
  | none => (resolveKeyValue svc p.keyConfig, p)
  | some kcs =>
    if kcs.length ≤ 1 then (resolveKeyValue svc p.keyConfig, p)
    else
      let currentIndex := p.currentKeyIndex.getD 0
      match scanLoop (resolveAt svc kcs) kcs.length currentIndex (List.range' 1 kcs.length) with
      | some (idx, v) => (some v, { p with currentKeyIndex := some idx })
      | none => (none, p)

/-- In-place mutation through the first list element satisfying `pred`
(JavaScript `find` hands out a live reference; mutating it mutates the
array).  When no element matches, the default `d` is returned and the list
is unchanged. -/
def updateFirstWhere (pred : Provider → Bool) (f : Provider → Option String × Provider)
    (d : Option String) : List Provider → Option String × List Provider
  | [] => (d, [])
  | p :: ps =>
    if pred p then
      let r := f p
      (r.1, r.2 :: ps)
    else
      let r := updateFirstWhere pred f d ps
      (r.1, p :: r.2)

/-- `ConfigManager.getApiKey(providerId)` at the settings level. -/
def getApiKey (svc : SecretService) (s : Settings) (providerId : String) :
    Option String × Settings :=
  let r := updateFirstWhere (fun p => p.id == providerId) (getApiKeyP svc) none s.providers
  (r.1, { s with providers := r.2 })

/-- `ConfigManager.rotateApiKey(providerId)` at the settings level. -/
def rotateApiKey (svc : SecretService) (s : Settings) (providerId : String) :
    Option String × Settings :=
  let r := updateFirstWhere (fun p => p.id == providerId) (rotateApiKeyP svc) none s.providers
  (r.1, { s with providers := r.2 })

/-- `n` successive calls of `rotateApiKey`, collecting the returned values
and threading the settings state. -/
def rotateIter (svc : SecretService) (s : Settings) (providerId : String) :
    Nat → List (Option String) × Settings
  | 0 => ([], s)
  | n + 1 =>
    let r := rotateApiKey svc s providerId
    let rest := rotateIter svc r.2 providerId n
    (r.1 :: rest.1, rest.2)

/-! ## Concrete example configuration (used by witnesses) -/

/-- A concrete model used by the witnesses. -/
def exModel : ModelConfig :=
  { id := "m1", name := "gpt-4o", displayName := "GPT-4o",
    temperature := 7/10, topP := 1 }

/-- A concrete provider used by the witnesses. -/
def exProvider : Provider :=
  { id := "p1", name := "OpenAI", endpoint := "https://api.openai.com/v1",
    keyConfig := some { mode := .local, localValue := some "sk-legacy" },
    models := [exModel] }

/-- A concrete settings state used by the witnesses: one provider with one
model, the `naming` feature bound to them, `translation` unbound. -/
def exSettings : Settings :=
  { providers := [exProvider],
    featureBindings := fun f =>
      match f with
      | .naming => some { providerId := "p1", modelId := "m1", promptTemplate := "tmpl" }
      | _ => none }

/-! ## C1: resolveFeatureConfig -/

/-- **C1**: for every feature, `resolveFeatureConfig` returns `none` exactly
when the feature has no binding, or the binding's `providerId` matches no
stored provider, or its `modelId` matches no model of that provider; in the
remaining case it returns the fully dereferenced
`{provider, model, promptTemplate}`.  The function is total (never throws)
by construction. -/
theorem resolveFeatureConfig_characterization (s : Settings) (f : AIFeature) :
    (resolveFeatureConfig s f = none ↔
      getFeatureBinding s f = none ∨
      ∃ b, getFeatureBinding s f = some b ∧
        (getProvider s b.providerId = none ∨
         ∃ p, getProvider s b.providerId = some p ∧ findModel p b.modelId = none)) ∧
    (∀ r, resolveFeatureConfig s f = some r →
      ∃ b p m, getFeatureBinding s f = some b ∧
        getProvider s b.providerId = some p ∧
        findModel p b.modelId = some m ∧
        r = { provider := p, model := m, promptTemplate := b.promptTemplate }) := by
  unfold resolveFeatureConfig
  cases hb : getFeatureBinding s f with
  | none => simp
  | some b =>
    cases hp : getProvider s b.providerId with
    | none => simp [hp]
    | some p =>
      cases hm : findModel p b.modelId with
      | none => simp [hp, hm]
      | some m =>
        refine ⟨by simp [hp, hm], ?_⟩
        intro r hr
        simp only [hp, hm, Option.some.injEq] at hr
        exact ⟨b, p, m, rfl, hp, hm, hr.symm⟩

/-- Witness for C1: instantiating the characterization at the concrete
example settings and the `naming` feature. -/
theorem resolveFeatureConfig_characterization_witness :
    ∃ b p m, getFeatureBinding exSettings .naming = some b ∧
      getProvider exSettings b.providerId = some p ∧
      findModel p b.modelId = some m ∧
      ({ provider := exProvider, model := exModel, promptTemplate := "tmpl" } : ResolvedConfig) =
        { provider := p, model := m, promptTemplate := b.promptTemplate } :=
  (resolveFeatureConfig_characterization exSettings .naming).2
    { provider := exProvider, model := exModel, promptTemplate := "tmpl" } (by rfl)

/-! ## Scan-loop characterization

The scan loops probe positions `(c+i) % N` for offsets `i` drawn from a
contiguous range.  We characterize them through the rotated list of resolved
key values, which turns the round-robin arguments into list surgery. -/

/-- The list of resolved (truthiness-filtered) key values of `kcs`, by
position. -/
def ovals (svc : SecretService) (kcs : List KeyConfig) : List (Option String) :=
  (List.range kcs.length).map (resolveAt svc kcs)

/-- First `some` entry of a list of options, together with its position. -/
def firstSomeAux : List (Option String) → Option (Nat × String)
  | [] => none
  | some v :: _ => some (0, v)
  | none :: rest => (firstSomeAux rest).map (fun r => (r.1 + 1, r.2))

theorem length_ovals (svc : SecretService) (kcs : List KeyConfig) :
    (ovals svc kcs).length = kcs.length := by
  simp [ovals]

theorem getElem_ovals (svc : SecretService) (kcs : List KeyConfig) (j : Nat)
    (h : j < (ovals svc kcs).length) :
    (ovals svc kcs)[j] = resolveAt svc kcs j := by
  simp [ovals]

/-- `scanLoop` over the offset range `[a, a+k)` is the first `some` of the
probed window, with its offset translated back to an index. -/
theorem scanLoop_spec (res : Nat → Option String) (n c : Nat) :
    ∀ (k a : Nat),
      scanLoop res n c (List.range' a k) =
        (firstSomeAux ((List.range' a k).map (fun i => res ((c + i) % n)))).map
          (fun r => ((c + (a + r.1)) % n, r.2)) := by
  intro k
  induction k with
  | zero => intro a; rfl
  | succ k ih =>
    intro a
    rw [List.range'_succ]
    show (match res ((c + a) % n) with
          | some v => some ((c + a) % n, v)
          | none => scanLoop res n c (List.range' (a + 1) k)) = _
    cases hres : res ((c + a) % n) with
    | some v => simp [firstSomeAux, hres]
    | none =>
      simp only [hres, ih (a + 1), List.map_cons, firstSomeAux, Option.map_map]
      congr 1
      funext r
      simp only [Function.comp_apply]
      congr 2
      omega

/-- The probed window for base offset `b` is the value list rotated by
`c + b`. -/
theorem window_eq (svc : SecretService) (kcs : List KeyConfig) (c b : Nat) :
    (List.range' b kcs.length).map (fun i => resolveAt svc kcs ((c + i) % kcs.length)) =
      (ovals svc kcs).rotate (c + b) := by
  apply List.ext_getElem
  · simp [length_ovals]
  · intro j h₁ h₂
    rw [List.getElem_map, List.getElem_range', List.getElem_rotate, getElem_ovals]
    congr 1
    rw [length_ovals]
    have : b + 1 * j = b + j := by omega
    rw [this]
    conv_rhs => rw [Nat.add_comm j (c + b), Nat.add_assoc]

theorem firstSomeAux_eq_none {u : List (Option String)} :
    firstSomeAux u = none ↔ ∀ x ∈ u, x = none := by
  induction u with
  | nil => simp [firstSomeAux]
  | cons x rest ih =>
    cases x with
    | some v => simp [firstSomeAux]
    | none => simp [firstSomeAux, ih]

/-- If the first `i` entries are `none` and entry `i` is `some v`, the first
`some` is at position `i`. -/
theorem firstSomeAux_first_hit :
    ∀ (u : List (Option String)) (i : Nat) (h : i < u.length),
      (∀ j, (hj : j < i) → u.get ⟨j, by omega⟩ = none) → u[i] = some v →
      firstSomeAux u = some (i, v) := by
  intro u
  induction u with
  | nil => intro i h; simp at h
  | cons x rest ih =>
    intro i h hprev hhit
    cases i with
    | zero =>
      simp only [List.getElem_cons_zero] at hhit
      subst hhit
      rfl
    | succ i =>
      have hx : x = none := hprev 0 (by omega)
      subst hx
      show (firstSomeAux rest).map (fun r => (r.1 + 1, r.2)) = some (i + 1, v)
      rw [ih i (by simpa using h) (fun j hj => hprev (j + 1) (by omega)) (by simpa using hhit)]
      rfl

/-- The head of `dropWhile isNone` (when non-empty) is a `some`, and
`firstSomeAux` returns it at position `takeWhile.length`. -/
theorem firstSomeAux_dropWhile :
    ∀ {u : List (Option String)} {v : String} {rest : List (Option String)},
      u.dropWhile (fun o => o.isNone) = some v :: rest →
      firstSomeAux u = some ((u.takeWhile (fun o => o.isNone)).length, v) := by
  intro u
  induction u with
  | nil => intro v rest h; simp [List.dropWhile] at h
  | cons x xs ih =>
    intro v rest h
    cases x with
    | some w =>
      rw [List.dropWhile_cons_of_neg (by simp)] at h
      obtain ⟨h₁, h₂⟩ := List.cons.inj h
      cases Option.some.inj h₁
      rw [List.takeWhile_cons_of_neg (by simp)]
      rfl
    | none =>
      rw [List.dropWhile_cons_of_pos (by simp)] at h
      rw [List.takeWhile_cons_of_pos (by simp)]
      show (firstSomeAux xs).map (fun r => (r.1 + 1, r.2)) = _
      rw [ih h]
      rfl

/-- Every entry of `dropWhile isNone`'s tail shape: a non-empty `dropWhile`
starts with a `some`. -/
theorem dropWhile_isNone_head :
    ∀ {u : List (Option String)} {y : Option String} {ys : List (Option String)},
      u.dropWhile (fun o => o.isNone) = y :: ys → ∃ v, y = some v := by
  intro u
  induction u with
  | nil => intro y ys h; simp [List.dropWhile] at h
  | cons x xs ih =>
    intro y ys h
    cases x with
    | some w =>
      rw [List.dropWhile_cons_of_neg (by simp)] at h
      exact ⟨w, (List.cons.inj h).1.symm⟩
    | none =>
      rw [List.dropWhile_cons_of_pos (by simp)] at h
      exact ih h

/-! ## One rotation step, and the trajectory of repeated rotation -/

/-- Rotating by a committed (mod-reduced) cursor is the same as rotating by
the unreduced one. -/
theorem ovals_rotate_mod_succ (svc : SecretService) (kcs : List KeyConfig) (x : Nat) :
    (ovals svc kcs).rotate (x % kcs.length + 1) = (ovals svc kcs).rotate (x + 1) := by
  rw [← List.rotate_rotate, ← List.rotate_rotate, ← length_ovals svc kcs, List.rotate_mod]

/-- A successful `rotateApiKey` step on one provider: if the window one past
the cursor contains a resolvable key, the first one (at window position
`takeWhile.length`) is returned and its index committed. -/
theorem rotateApiKeyP_step_some (svc : SecretService) (p : Provider) (kcs : List KeyConfig)
    (hk : p.keyConfigs = some kcs) (hN : 2 ≤ kcs.length) (v : String)
    (ys : List (Option String))
    (hd : (((ovals svc kcs).rotate (p.currentKeyIndex.getD 0 + 1)).dropWhile
            (fun o => o.isNone)) = some v :: ys) :
    rotateApiKeyP svc p =
      (some v,
        { p with currentKeyIndex := some ((p.currentKeyIndex.getD 0 +
            (1 + (((ovals svc kcs).rotate (p.currentKeyIndex.getD 0 + 1)).takeWhile
                    (fun o => o.isNone)).length)) % kcs.length) }) := by
  have hscan : scanLoop (resolveAt svc kcs) kcs.length (p.currentKeyIndex.getD 0)
      (List.range' 1 kcs.length) =
      (firstSomeAux ((ovals svc kcs).rotate (p.currentKeyIndex.getD 0 + 1))).map
        (fun r => ((p.currentKeyIndex.getD 0 + (1 + r.1)) % kcs.length, r.2)) := by
    rw [scanLoop_spec, window_eq]
  rw [firstSomeAux_dropWhile hd] at hscan
  simp only [rotateApiKeyP, hk, if_neg (by omega : ¬ kcs.length ≤ 1)]
  rw [hscan]
  rfl

/-- A failing `rotateApiKey` step: if no key in the window is resolvable,
nothing is returned and the provider is untouched. -/
theorem rotateApiKeyP_step_none (svc : SecretService) (p : Provider) (kcs : List KeyConfig)
    (hk : p.keyConfigs = some kcs) (hN : 2 ≤ kcs.length)
    (hd : (((ovals svc kcs).rotate (p.currentKeyIndex.getD 0 + 1)).dropWhile
            (fun o => o.isNone)) = []) :
    rotateApiKeyP svc p = (none, p) := by
  have hall : ∀ x ∈ (ovals svc kcs).rotate (p.currentKeyIndex.getD 0 + 1), x = none := by
    intro x hx
    have := List.dropWhile_eq_nil_iff.mp hd x hx
    exact Option.isNone_iff_eq_none.mp this
  have hscan : scanLoop (resolveAt svc kcs) kcs.length (p.currentKeyIndex.getD 0)
      (List.range' 1 kcs.length) =
      (firstSomeAux ((ovals svc kcs).rotate (p.currentKeyIndex.getD 0 + 1))).map
        (fun r => ((p.currentKeyIndex.getD 0 + (1 + r.1)) % kcs.length, r.2)) := by
    rw [scanLoop_spec, window_eq]
  rw [firstSomeAux_eq_none.mpr hall] at hscan
  simp only [rotateApiKeyP, hk, if_neg (by omega : ¬ kcs.length ≤ 1)]
  rw [hscan]
  rfl

/-- `n` successive calls of `rotateApiKey` on one provider, collecting the
returned values. -/
def rotIterP (svc : SecretService) (p : Provider) : Nat → List (Option String) × Provider
  | 0 => ([], p)
  | n + 1 =>
    let r := rotateApiKeyP svc p
    let rest := rotIterP svc r.2 n
    (r.1 :: rest.1, rest.2)

/-- A list of options all of which are `some` is recovered from its
`filterMap id` by re-wrapping. -/
theorem filterMap_id_all_some :
    ∀ {u : List (Option String)}, (∀ x ∈ u, x.isSome) → (u.filterMap id).map some = u := by
  intro u
  induction u with
  | nil => intro _; rfl
  | cons x xs ih =>
    intro h
    obtain ⟨v, hv⟩ := Option.isSome_iff_exists.mp (h x (by simp))
    subst hv
    simp only [List.filterMap_cons, id, List.map_cons]
    rw [ih (fun y hy => h y (by simp [hy]))]

/-- Trajectory of repeated rotation: as long as the call count stays within
the number of resolvable keys, call `k` returns the `k`-th resolvable value
of the window starting one past the initial cursor. -/
theorem rotIterP_traj (svc : SecretService) :
    ∀ (n : Nat) (p : Provider) (kcs : List KeyConfig),
      p.keyConfigs = some kcs → 2 ≤ kcs.length →
      n ≤ (((ovals svc kcs).rotate (p.currentKeyIndex.getD 0 + 1)).filterMap id).length →
      (rotIterP svc p n).1 =
        ((((ovals svc kcs).rotate (p.currentKeyIndex.getD 0 + 1)).filterMap id).take n).map
          some := by
  intro n
  induction n with
  | zero => intros; rfl
  | succ n ih =>
    intro p kcs hk hN hlen
    cases hd : ((ovals svc kcs).rotate (p.currentKeyIndex.getD 0 + 1)).dropWhile
        (fun o => o.isNone) with
    | nil =>
      exfalso
      have hnil : ((ovals svc kcs).rotate (p.currentKeyIndex.getD 0 + 1)).filterMap id = [] := by
        rw [List.filterMap_eq_nil_iff]
        intro a ha
        exact Option.isNone_iff_eq_none.mp (List.dropWhile_eq_nil_iff.mp hd a ha)
      rw [hnil] at hlen
      simp at hlen
    | cons y ys =>
      obtain ⟨v, rfl⟩ := dropWhile_isNone_head hd
      -- decompose the window
      set c := p.currentKeyIndex.getD 0 with hc
      set w := (ovals svc kcs).rotate (c + 1) with hw
      set t := w.takeWhile (fun o => o.isNone) with ht
      have hdec : w = t ++ some v :: ys := by
        conv_lhs => rw [← List.takeWhile_append_dropWhile (p := fun o => o.isNone) (l := w)]
        rw [hd]
      have htnone : ∀ x ∈ t, x = none := by
        intro x hx
        exact Option.isNone_iff_eq_none.mp (List.mem_takeWhile_imp hx)
      have htfm : t.filterMap id = [] := by
        rw [List.filterMap_eq_nil_iff]; intro a ha; exact htnone a ha
      have hwfm : w.filterMap id = v :: ys.filterMap id := by
        rw [hdec, List.filterMap_append, htfm, List.filterMap_cons]
        rfl
      -- the rotation step
      have hstep := rotateApiKeyP_step_some svc p kcs hk hN v ys hd
      -- the next cursor and window
      set p' : Provider :=
        { p with currentKeyIndex := some ((c + (1 + t.length)) % kcs.length) } with hp'
      have hc' : p'.currentKeyIndex.getD 0 = (c + (1 + t.length)) % kcs.length := rfl
      have hk' : p'.keyConfigs = some kcs := hk
      have hw' : (ovals svc kcs).rotate (p'.currentKeyIndex.getD 0 + 1) =
          w.rotate (t.length + 1) := by
        rw [hc', ovals_rotate_mod_succ, hw, List.rotate_rotate]
        congr 1
        omega
      have hwrot : w.rotate (t.length + 1) = ys ++ (t ++ [some v]) := by
        have hdec2 : w = (t ++ [some v]) ++ ys := by
          rw [hdec, List.append_assoc]
          rfl
        have hlen2 : (t ++ [some v]).length = t.length + 1 := by simp
        rw [hdec2, ← hlen2, List.rotate_append_length_eq]
      have hw'fm : (w.rotate (t.length + 1)).filterMap id = ys.filterMap id ++ [v] := by
        rw [hwrot, List.filterMap_append, List.filterMap_append, htfm, List.filterMap_cons]
        rfl
      -- lengths
      have hlen1 : n ≤ (ys.filterMap id).length := by
        rw [hwfm] at hlen
        simpa using hlen
      -- apply the induction hypothesis at the rotated provider
      have hih := ih p' kcs hk' hN (by rw [hw', hw'fm]; simp; omega)
      show (rotateApiKeyP svc p).1 :: (rotIterP svc (rotateApiKeyP svc p).2 n).1 =
        List.map some (List.take (n + 1) (List.filterMap id w))
      rw [hstep]
      show some v :: (rotIterP svc p' n).1 =
        List.map some (List.take (n + 1) (List.filterMap id w))
      rw [hih, hw', hw'fm, List.take_append_of_le_length hlen1, hwfm,
        List.take_succ_cons, List.map_cons]

/-! ## Relating positional value lists to the key-config list -/

theorem range_map_getElem? {α β : Type _} (l : List α) (g : Option α → β) :
    (List.range l.length).map (fun i => g l[i]?) = l.map (fun x => g (some x)) := by
  induction l with
  | nil => rfl
  | cons x xs ih =>
    rw [List.length_cons, List.range_succ_eq_map, List.map_cons, List.map_map]
    have hc : ((fun i => g (x :: xs)[i]?) ∘ Nat.succ) = fun i => g xs[i]? := by
      funext i
      simp
    rw [hc, ih]
    simp

theorem range_filterMap_getElem? {α β : Type _} (l : List α) (g : Option α → Option β) :
    (List.range l.length).filterMap (fun i => g l[i]?) = l.filterMap (fun x => g (some x)) := by
  induction l with
  | nil => rfl
  | cons x xs ih =>
    rw [List.length_cons, List.range_succ_eq_map, List.filterMap_cons, List.filterMap_map]
    have hc : ((fun i => g (x :: xs)[i]?) ∘ Nat.succ) = fun i => g xs[i]? := by
      funext i
      simp
    rw [hc, ih]
    simp [List.filterMap_cons]

/-- The positional value list is the key-config list mapped through
resolution. -/
theorem ovals_eq_map (svc : SecretService) (kcs : List KeyConfig) :
    ovals svc kcs = kcs.map (fun kc => truthyVal (resolveKeyValue svc (some kc))) := by
  have h : ovals svc kcs =
      (List.range kcs.length).map
        (fun i => truthyVal (resolveKeyValue svc kcs[i]?)) := rfl
  rw [h, range_map_getElem? kcs (fun o => truthyVal (resolveKeyValue svc o))]

/-! ## Settings-level plumbing for `updateFirstWhere` -/

theorem updateFirstWhere_none {pred f d} :
    ∀ {l : List Provider}, l.find? pred = none → updateFirstWhere pred f d l = (d, l) := by
  intro l
  induction l with
  | nil => intro _; rfl
  | cons q qs ih =>
    intro h
    cases hq : pred q with
    | true => rw [List.find?_cons_of_pos _ hq] at h; exact absurd h (by simp)
    | false =>
      rw [List.find?_cons_of_neg _ (by simp [hq])] at h
      simp only [updateFirstWhere, hq, Bool.false_eq_true, if_false]
      rw [ih h]

theorem updateFirstWhere_fst {pred f d p} :
    ∀ {l : List Provider}, l.find? pred = some p → (updateFirstWhere pred f d l).1 = (f p).1 := by
  intro l
  induction l with
  | nil => intro h; simp at h
  | cons q qs ih =>
    intro h
    cases hq : pred q with
    | true =>
      rw [List.find?_cons_of_pos _ hq] at h
      obtain rfl : q = p := Option.some.inj h
      simp [updateFirstWhere, hq]
    | false =>
      rw [List.find?_cons_of_neg _ (by simp [hq])] at h
      simp only [updateFirstWhere, hq, Bool.false_eq_true, if_false]
      exact ih h

theorem updateFirstWhere_snd_find? {pred f d p} (hpred : pred (f p).2 = true) :
    ∀ {l : List Provider}, l.find? pred = some p →
      (updateFirstWhere pred f d l).2.find? pred = some (f p).2 := by
  intro l
  induction l with
  | nil => intro h; simp at h
  | cons q qs ih =>
    intro h
    cases hq : pred q with
    | true =>
      rw [List.find?_cons_of_pos _ hq] at h
      obtain rfl : q = p := Option.some.inj h
      simp only [updateFirstWhere, hq, if_true]
      rw [List.find?_cons_of_pos _ hpred]
    | false =>
      rw [List.find?_cons_of_neg _ (by simp [hq])] at h
      simp only [updateFirstWhere, hq, Bool.false_eq_true, if_false]
      rw [List.find?_cons_of_neg _ (by simp [hq])]
      exact ih h

theorem updateFirstWhere_snd_id {pred f d p} (hid : (f p).2 = p) :
    ∀ {l : List Provider}, l.find? pred = some p → (updateFirstWhere pred f d l).2 = l := by
  intro l
  induction l with
  | nil => intro h; simp at h
  | cons q qs ih =>
    intro h
    cases hq : pred q with
    | true =>
      rw [List.find?_cons_of_pos _ hq] at h
      obtain rfl : q = p := Option.some.inj h
      simp [updateFirstWhere, hq, hid]
    | false =>
      rw [List.find?_cons_of_neg _ (by simp [hq])] at h
      simp only [updateFirstWhere, hq, Bool.false_eq_true, if_false]
      rw [ih h]

theorem updateFirstWhere_snd_congr (pred : Provider → Bool)
    (f g : Provider → Option String × Provider) (d e : Option String) (p : Provider)
    (hfg : (f p).2 = (g p).2) :
    ∀ {l : List Provider}, l.find? pred = some p →
      (updateFirstWhere pred f d l).2 = (updateFirstWhere pred g e l).2 := by
  intro l
  induction l with
  | nil => intro h; simp at h
  | cons q qs ih =>
    intro h
    cases hq : pred q with
    | true =>
      rw [List.find?_cons_of_pos _ hq] at h
      obtain rfl : q = p := Option.some.inj h
      simp [updateFirstWhere, hq, hfg]
    | false =>
      rw [List.find?_cons_of_neg _ (by simp [hq])] at h
      simp only [updateFirstWhere, hq, Bool.false_eq_true, if_false]
      rw [ih h]

/-- `rotateApiKey` never changes a provider's id. -/
theorem rotateApiKeyP_id (svc : SecretService) (p : Provider) :
    (rotateApiKeyP svc p).2.id = p.id := by
  unfold rotateApiKeyP
  split
  · rfl
  · split
    · rfl
    · dsimp only
      split
      · rfl
      · rfl

/-- Successive settings-level rotations produce the same value stream as the
provider-level iteration. -/
theorem rotateIter_fst (svc : SecretService) :
    ∀ (n : Nat) (s : Settings) (pid : String) (p : Provider),
      getProvider s pid = some p →
      (rotateIter svc s pid n).1 = (rotIterP svc p n).1 := by
  intro n
  induction n with
  | zero => intros; rfl
  | succ n ih =>
    intro s pid p hp
    have hfind : s.providers.find? (fun q => q.id == pid) = some p := hp
    have hpid : (p.id == pid) = true := by simpa using List.find?_some hfind
    have hfst : (rotateApiKey svc s pid).1 = (rotateApiKeyP svc p).1 :=
      updateFirstWhere_fst hfind
    have hfind' : getProvider (rotateApiKey svc s pid).2 pid = some (rotateApiKeyP svc p).2 := by
      show ((updateFirstWhere (fun q => q.id == pid) (rotateApiKeyP svc) none
        s.providers).2).find? (fun q => q.id == pid) = _
      refine updateFirstWhere_snd_find? ?_ hfind
      show ((rotateApiKeyP svc p).2.id == pid) = true
      rw [rotateApiKeyP_id]
      exact hpid
    show (rotateApiKey svc s pid).1 :: (rotateIter svc (rotateApiKey svc s pid).2 pid n).1 =
      (rotateApiKeyP svc p).1 :: (rotIterP svc (rotateApiKeyP svc p).2 n).1
    rw [hfst, ih _ _ _ hfind']

/-! ## C2: cyclic key rotation -/

/-- **C2**: for a provider with `N > 1` key configs, if all keys resolve,
`N` successive `rotateApiKey` calls return the keys in cyclic order starting
one position past the initial `currentKeyIndex`, visiting every key exactly
once (the outputs are a permutation of the full key-value list); and in
general (keys may be unresolvable and are then skipped), `m` successive calls
— `m` the number of resolvable keys — return exactly the resolvable keys,
each once. -/
theorem rotateApiKey_cycle (svc : SecretService) (s : Settings) (pid : String)
    (p : Provider) (kcs : List KeyConfig)
    (hp : getProvider s pid = some p) (hk : p.keyConfigs = some kcs)
    (hN : 2 ≤ kcs.length) :
    ((∀ kc ∈ kcs, (truthyVal (resolveKeyValue svc (some kc))).isSome = true) →
      (rotateIter svc s pid kcs.length).1 =
        (List.range kcs.length).map
          (fun k => resolveAt svc kcs ((p.currentKeyIndex.getD 0 + 1 + k) % kcs.length)) ∧
      List.Perm (rotateIter svc s pid kcs.length).1
        (kcs.map (fun kc => truthyVal (resolveKeyValue svc (some kc))))) ∧
    (∃ l : List String,
      (rotateIter svc s pid
          (kcs.filterMap (fun kc => truthyVal (resolveKeyValue svc (some kc)))).length).1 =
        l.map some ∧
      List.Perm l (kcs.filterMap (fun kc => truthyVal (resolveKeyValue svc (some kc))))) := by
  have hovals := ovals_eq_map svc kcs
  set c := p.currentKeyIndex.getD 0 with hc
  set w := (ovals svc kcs).rotate (c + 1) with hw
  have hWperm : List.Perm w (ovals svc kcs) := List.rotate_perm _ _
  have hfmperm : List.Perm (w.filterMap id) ((ovals svc kcs).filterMap id) :=
    hWperm.filterMap id
  have hofm : (ovals svc kcs).filterMap id =
      kcs.filterMap (fun kc => truthyVal (resolveKeyValue svc (some kc))) := by
    rw [hovals, List.filterMap_map, Function.id_comp]
  have hflen : (w.filterMap id).length =
      (kcs.filterMap (fun kc => truthyVal (resolveKeyValue svc (some kc)))).length := by
    rw [hfmperm.length_eq, hofm]
  have hbr : ∀ n, (rotateIter svc s pid n).1 = (rotIterP svc p n).1 :=
    fun n => rotateIter_fst svc n s pid p hp
  constructor
  · intro hall
    have hallov : ∀ x ∈ ovals svc kcs, x.isSome := by
      rw [hovals]
      intro x hx
      obtain ⟨kc, hkc, rfl⟩ := List.mem_map.mp hx
      exact hall kc hkc
    have hallw : ∀ x ∈ w, x.isSome := fun x hx => hallov x (hWperm.mem_iff.mp hx)
    have hwlen : w.length = kcs.length := by rw [hw, List.length_rotate, length_ovals]
    have hfw : (w.filterMap id).map some = w := filterMap_id_all_some hallw
    have hfwlen : (w.filterMap id).length = kcs.length := by
      have h1 := congrArg List.length hfw
      simpa [hwlen] using h1
    have htrajN := rotIterP_traj svc kcs.length p kcs hk hN (le_of_eq hfwlen.symm)
    have houtw : (rotIterP svc p kcs.length).1 = w := by
      rw [htrajN, ← hfwlen, List.take_length, hfw]
    constructor
    · rw [hbr, houtw]
      have hwin := window_eq svc kcs c 1
      rw [hw, ← hwin, List.range'_eq_map_range, List.map_map]
      have harg : ((fun i => resolveAt svc kcs ((c + i) % kcs.length)) ∘ (1 + ·)) =
          fun k => resolveAt svc kcs ((c + 1 + k) % kcs.length) := by
        funext k
        simp [Function.comp, Nat.add_assoc]
      rw [harg]
    · rw [hbr, houtw, ← hovals]
      exact hWperm
  · refine ⟨w.filterMap id, ?_, ?_⟩
    · rw [hbr,
        rotIterP_traj svc _ p kcs hk hN (le_of_eq hflen.symm), ← hflen, List.take_length]
    · rw [← hofm]
      exact hfmperm

/-- Concrete two-key provider used by the C2 witness. -/
def kcW2a : KeyConfig := { mode := .local, localValue := some "k1" }

/-- Second key of the C2 witness provider. -/
def kcW2b : KeyConfig := { mode := .local, localValue := some "k2" }

/-- The C2 witness provider (two resolvable local keys, cursor unset). -/
def pW2 : Provider :=
  { id := "p2", name := "P2", endpoint := "e", keyConfigs := some [kcW2a, kcW2b] }

/-- The C2 witness settings. -/
def sW2 : Settings := { providers := [pW2] }

/-- Witness for C2: two rotations on a fresh two-key provider return
`k2` then `k1`, a permutation of the key list. -/
theorem rotateApiKey_cycle_witness :
    (rotateIter none sW2 "p2" 2).1 = [some "k2", some "k1"] ∧
    List.Perm (rotateIter none sW2 "p2" 2).1
      ([kcW2a, kcW2b].map (fun kc => truthyVal (resolveKeyValue none (some kc)))) := by
  have h := (rotateApiKey_cycle none sW2 "p2" pW2 [kcW2a, kcW2b] rfl rfl (by decide)).1
    (by decide)
  refine ⟨?_, h.2⟩
  exact h.1.trans (by rfl)

/-! ## C4: rotation with at most one key -/

/-- The single key config of the C4 counterexample provider. -/
def kcC4 : KeyConfig := { mode := .local, localValue := some "sk-1" }

/-- C4 counterexample provider: its one key lives in `keyConfigs`, the legacy
`keyConfig` field is unset. -/
def pC4 : Provider :=
  { id := "p4", name := "P4", endpoint := "e", keyConfigs := some [kcC4] }

/-- C4 counterexample settings. -/
def sC4 : Settings := { providers := [pC4] }

/-- **C4, counterexample**: a provider whose only `KeyConfig` (stored in the
`keyConfigs` list) resolves to `"sk-1"`, yet `rotateApiKey` returns
`undefined`: with `keyConfigs.length ≤ 1` the code resolves the legacy
`keyConfig` field, which is unset here — not the single key's value as the
claim states. -/
theorem rotateApiKey_single_counterexample :
    truthyVal (resolveKeyValue none (some kcC4)) = some "sk-1" ∧
    rotateApiKey none sC4 "p4" = (none, sC4) := by
  exact ⟨rfl, rfl⟩

/-- **C4, amended**: for a provider with zero or one entries in `keyConfigs`,
`rotateApiKey` returns `resolveKeyValue` of the **legacy single `keyConfig`
field** (which may differ from the sole `keyConfigs` entry), never mutates
any state, and is therefore idempotent: every repetition returns the same
value. -/
theorem rotateApiKey_single_amended (svc : SecretService) (s : Settings) (pid : String)
    (p : Provider) (hp : getProvider s pid = some p)
    (hk : ∀ kcs, p.keyConfigs = some kcs → kcs.length ≤ 1) :
    rotateApiKey svc s pid = (resolveKeyValue svc p.keyConfig, s) ∧
    ∀ n, (rotateIter svc s pid n).1 =
      List.replicate n (resolveKeyValue svc p.keyConfig) := by
  have hfind : s.providers.find? (fun q => q.id == pid) = some p := hp
  have hP : rotateApiKeyP svc p = (resolveKeyValue svc p.keyConfig, p) := by
    unfold rotateApiKeyP
    cases hkc : p.keyConfigs with
    | none => rfl
    | some kcs =>
      dsimp only
      rw [if_pos (hk kcs hkc)]
  have h1 : (rotateApiKey svc s pid).1 = resolveKeyValue svc p.keyConfig := by
    show (updateFirstWhere (fun q => q.id == pid) (rotateApiKeyP svc) none s.providers).1 = _
    rw [updateFirstWhere_fst hfind, hP]
  have h2 : (rotateApiKey svc s pid).2 = s := by
    show { s with providers :=
      (updateFirstWhere (fun q => q.id == pid) (rotateApiKeyP svc) none s.providers).2 } = s
    rw [updateFirstWhere_snd_id (by rw [hP]) hfind]
  have hmain : rotateApiKey svc s pid = (resolveKeyValue svc p.keyConfig, s) := by
    rw [show rotateApiKey svc s pid =
      ((rotateApiKey svc s pid).1, (rotateApiKey svc s pid).2) from rfl, h1, h2]
  refine ⟨hmain, ?_⟩
  intro n
  induction n with
  | zero => rfl
  | succ n ih =>
    have hstep : (rotateIter svc s pid (n + 1)).1 =
        (rotateApiKey svc s pid).1 ::
          (rotateIter svc (rotateApiKey svc s pid).2 pid n).1 := rfl
    rw [hstep, hmain]
    show resolveKeyValue svc p.keyConfig :: (rotateIter svc s pid n).1 = _
    rw [ih, List.replicate_succ]

/-- Witness for the amended C4: the example provider stores its only key in
the legacy `keyConfig` field; rotation returns it and changes nothing. -/
theorem rotateApiKey_single_amended_witness :
    rotateApiKey none exSettings "p1" = (some "sk-legacy", exSettings) := by
  have h := (rotateApiKey_single_amended none exSettings "p1" exProvider rfl
    (fun kcs hkcs => nomatch hkcs)).1
  exact h

/-! ## Characterizing `getApiKey`'s forward scan -/

theorem pair_eq {α β : Type _} {x : α × β} {a : α} {b : β}
    (h1 : x.1 = a) (h2 : x.2 = b) : x = (a, b) := by
  rw [← h1, ← h2]

/-- The 0-based scan of `findNextAvailableKey` returns the first resolvable
index at cyclic offset `i` from the start. -/
theorem scanLoop_range_first_hit (svc : SecretService) (kcs : List KeyConfig)
    (start i : Nat) (v : String) (hi : i < kcs.length)
    (hprev : ∀ j, j < i → resolveAt svc kcs ((start + j) % kcs.length) = none)
    (hhit : resolveAt svc kcs ((start + i) % kcs.length) = some v) :
    scanLoop (resolveAt svc kcs) kcs.length start (List.range kcs.length) =
      some ((start + i) % kcs.length, v) := by
  rw [List.range_eq_range', scanLoop_spec]
  have hlen : ((List.range' 0 kcs.length).map
      (fun j => resolveAt svc kcs ((start + j) % kcs.length))).length = kcs.length := by
    simp
  have hget : ∀ (j : Nat) (hj : j < kcs.length),
      ((List.range' 0 kcs.length).map
        (fun j => resolveAt svc kcs ((start + j) % kcs.length))).get ⟨j, by omega⟩ =
        resolveAt svc kcs ((start + j) % kcs.length) := by
    intro j hj
    rw [List.get_eq_getElem, List.getElem_map, List.getElem_range']
    simp
  rw [firstSomeAux_first_hit _ i (by omega)
    (fun j hj => by rw [hget j (by omega)]; exact hprev j hj)
    (by rw [← hget i hi] at hhit; exact hhit)]
  simp

/-- The 0-based scan fails when no index is resolvable. -/
theorem scanLoop_range_none (svc : SecretService) (kcs : List KeyConfig) (start : Nat)
    (hall : ∀ i, i < kcs.length →
      resolveAt svc kcs ((start + i) % kcs.length) = none) :
    scanLoop (resolveAt svc kcs) kcs.length start (List.range kcs.length) = none := by
  rw [List.range_eq_range', scanLoop_spec]
  rw [firstSomeAux_eq_none.mpr ?_]
  · rfl
  · intro x hx
    obtain ⟨j, hj, rfl⟩ := List.mem_map.mp hx
    rw [List.mem_range'_1] at hj
    exact hall j (by omega)

/-- `getApiKey` on one provider when the key at the current index resolves:
return it, touch nothing. -/
theorem getApiKeyP_hit (svc : SecretService) (p : Provider) (kcs : List KeyConfig)
    (hk : p.keyConfigs = some kcs) (hne : 0 < kcs.length) (v : String)
    (hres : resolveAt svc kcs (p.currentKeyIndex.getD 0) = some v) :
    getApiKeyP svc p = (some v, p) := by
  obtain ⟨pid0, pn, pe, pkc, pkcs, pcki, pm⟩ := p
  subst hk
  unfold getApiKeyP
  dsimp only at hres ⊢
  rw [if_pos hne, hres]

/-- `getApiKey` on one provider when the current key fails: the first
resolvable key at cyclic offset `i` is returned, and the index is committed
only when it differs from the start. -/
theorem getApiKeyP_miss_hit (svc : SecretService) (p : Provider) (kcs : List KeyConfig)
    (hk : p.keyConfigs = some kcs) (hne : 0 < kcs.length)
    (hmiss : resolveAt svc kcs (p.currentKeyIndex.getD 0) = none)
    (i : Nat) (v : String) (hi : i < kcs.length)
    (hprev : ∀ j, j < i →
      resolveAt svc kcs ((p.currentKeyIndex.getD 0 + j) % kcs.length) = none)
    (hhit : resolveAt svc kcs ((p.currentKeyIndex.getD 0 + i) % kcs.length) = some v) :
    getApiKeyP svc p =
      (some v,
        if (p.currentKeyIndex.getD 0 + i) % kcs.length = p.currentKeyIndex.getD 0 then p
        else { p with
          currentKeyIndex := some ((p.currentKeyIndex.getD 0 + i) % kcs.length) }) := by
  obtain ⟨pid0, pn, pe, pkc, pkcs, pcki, pm⟩ := p
  subst hk
  have hscan := scanLoop_range_first_hit svc kcs (pcki.getD 0) i v hi hprev hhit
  unfold getApiKeyP findNextAvailableKeyP
  dsimp only at hmiss hscan ⊢
  rw [if_pos hne, hmiss]
  dsimp only
  rw [if_neg (by omega : ¬ kcs.length = 0), hscan]
  dsimp only
  by_cases heq : (pcki.getD 0 + i) % kcs.length = pcki.getD 0
  · rw [if_pos heq, if_pos heq]
  · rw [if_neg heq, if_neg heq]

/-- `getApiKey` on one provider when no key resolves: `undefined`, provider
untouched. -/
theorem getApiKeyP_none (svc : SecretService) (p : Provider) (kcs : List KeyConfig)
    (hk : p.keyConfigs = some kcs) (hne : 0 < kcs.length)
    (hall : ∀ i, i < kcs.length →
      resolveAt svc kcs ((p.currentKeyIndex.getD 0 + i) % kcs.length) = none) :
    getApiKeyP svc p = (none, p) := by
  obtain ⟨pid0, pn, pe, pkc, pkcs, pcki, pm⟩ := p
  subst hk
  have hmiss : resolveAt svc kcs (pcki.getD 0) = none := by
    by_cases hlt : pcki.getD 0 < kcs.length
    · have h0 := hall 0 hne
      rwa [Nat.add_zero, Nat.mod_eq_of_lt hlt] at h0
    · have hnone : kcs[pcki.getD 0]? = none := List.getElem?_eq_none (by omega)
      simp [resolveAt, hnone, resolveKeyValue, truthyVal]
  have hscan := scanLoop_range_none svc kcs (pcki.getD 0) hall
  unfold getApiKeyP findNextAvailableKeyP
  dsimp only at hmiss hscan ⊢
  rw [if_pos hne, hmiss]
  dsimp only
  rw [if_neg (by omega : ¬ kcs.length = 0), hscan]

/-- In the settings state, commit a new `currentKeyIndex` on the first
provider with the given id. -/
def setCurrentKeyIndex (s : Settings) (pid : String) (idx : Nat) : Settings :=
  { s with providers :=
      (updateFirstWhere (fun q => q.id == pid)
        (fun q => (none, { q with currentKeyIndex := some idx })) none s.providers).2 }

/-! ## C3: getApiKey -/

/-- **C3**: for a provider with a non-empty `keyConfigs` list, `getApiKey`
returns the key at `currentKeyIndex ?? 0` when it resolves (no state change);
otherwise it returns the first resolving key scanning forward with wraparound
and persists the new index exactly when it differs from the start; and it
returns `undefined` leaving the state unchanged when no key resolves
(a local key with empty stored value and a shared key whose secret is missing
both count as not resolving — `resolveAt` is `resolveKeyValue` under
JavaScript truthiness). -/
theorem getApiKey_spec (svc : SecretService) (s : Settings) (pid : String)
    (p : Provider) (kcs : List KeyConfig)
    (hp : getProvider s pid = some p) (hk : p.keyConfigs = some kcs)
    (hne : 0 < kcs.length) :
    (∀ v, resolveAt svc kcs (p.currentKeyIndex.getD 0) = some v →
      getApiKey svc s pid = (some v, s)) ∧
    (resolveAt svc kcs (p.currentKeyIndex.getD 0) = none →
      ∀ i v, i < kcs.length →
        (∀ j, j < i →
          resolveAt svc kcs ((p.currentKeyIndex.getD 0 + j) % kcs.length) = none) →
        resolveAt svc kcs ((p.currentKeyIndex.getD 0 + i) % kcs.length) = some v →
        getApiKey svc s pid =
          (some v,
            if (p.currentKeyIndex.getD 0 + i) % kcs.length = p.currentKeyIndex.getD 0 then s
            else setCurrentKeyIndex s pid
              ((p.currentKeyIndex.getD 0 + i) % kcs.length))) ∧
    ((∀ i, i < kcs.length →
        resolveAt svc kcs ((p.currentKeyIndex.getD 0 + i) % kcs.length) = none) →
      getApiKey svc s pid = (none, s)) := by
  have hfind : s.providers.find? (fun q => q.id == pid) = some p := hp
  refine ⟨?_, ?_, ?_⟩
  · intro v hres
    have hP := getApiKeyP_hit svc p kcs hk hne v hres
    refine pair_eq ?_ ?_
    · show (updateFirstWhere (fun q => q.id == pid) (getApiKeyP svc) none s.providers).1 = _
      rw [updateFirstWhere_fst hfind, hP]
    · show { s with providers :=
        (updateFirstWhere (fun q => q.id == pid) (getApiKeyP svc) none s.providers).2 } = s
      rw [updateFirstWhere_snd_id (by rw [hP]) hfind]
  · intro hmiss i v hi hprev hhit
    have hP := getApiKeyP_miss_hit svc p kcs hk hne hmiss i v hi hprev hhit
    by_cases heq : (p.currentKeyIndex.getD 0 + i) % kcs.length = p.currentKeyIndex.getD 0
    · rw [if_pos heq] at hP ⊢
      refine pair_eq ?_ ?_
      · show (updateFirstWhere (fun q => q.id == pid) (getApiKeyP svc) none s.providers).1 = _
        rw [updateFirstWhere_fst hfind, hP]
      · show { s with providers :=
          (updateFirstWhere (fun q => q.id == pid) (getApiKeyP svc) none s.providers).2 } = s
        rw [updateFirstWhere_snd_id (by rw [hP]) hfind]
    · rw [if_neg heq] at hP ⊢
      refine pair_eq ?_ ?_
      · show (updateFirstWhere (fun q => q.id == pid) (getApiKeyP svc) none s.providers).1 = _
        rw [updateFirstWhere_fst hfind, hP]
      · show { s with providers :=
          (updateFirstWhere (fun q => q.id == pid) (getApiKeyP svc) none s.providers).2 } =
          setCurrentKeyIndex s pid ((p.currentKeyIndex.getD 0 + i) % kcs.length)
        unfold setCurrentKeyIndex
        rw [updateFirstWhere_snd_congr (fun q => q.id == pid) (getApiKeyP svc)
          (fun q => (none, { q with
            currentKeyIndex := some ((p.currentKeyIndex.getD 0 + i) % kcs.length) }))
          none none p (by rw [hP]) hfind]
  · intro hall
    have hP := getApiKeyP_none svc p kcs hk hne hall
    refine pair_eq ?_ ?_
    · show (updateFirstWhere (fun q => q.id == pid) (getApiKeyP svc) none s.providers).1 = _
      rw [updateFirstWhere_fst hfind, hP]
    · show { s with providers :=
        (updateFirstWhere (fun q => q.id == pid) (getApiKeyP svc) none s.providers).2 } = s
      rw [updateFirstWhere_snd_id (by rw [hP]) hfind]

/-- First key of the C3 witness provider: a local key with empty stored
value, which counts as not resolving. -/
def kcW3a : KeyConfig := { mode := .local, localValue := some "" }

/-- Second key of the C3 witness provider, resolvable. -/
def kcW3b : KeyConfig := { mode := .local, localValue := some "k2" }

/-- The C3 witness provider. -/
def pW3 : Provider :=
  { id := "p3", name := "P3", endpoint := "e", keyConfigs := some [kcW3a, kcW3b] }

/-- The C3 witness settings. -/
def sW3 : Settings := { providers := [pW3] }

/-- Witness for C3: the current key (index 0, empty local value) fails, the
scan finds index 1 and persists it. -/
theorem getApiKey_spec_witness :
    getApiKey none sW3 "p3" = (some "k2", setCurrentKeyIndex sW3 "p3" 1) := by
  have h := (getApiKey_spec none sW3 "p3" pW3 [kcW3a, kcW3b] rfl rfl (by decide)).2.1
    (by rfl) 1 "k2" (by decide)
    (fun j hj => by
      have hj0 : j = 0 := by omega
      subst hj0
      rfl)
    (by rfl)
  simpa using h

/-! ## C10: frame conditions of getApiKey and rotateApiKey -/

/-- `getApiKey` either leaves the provider untouched or commits a new
cursor alongside a successfully returned key. -/
theorem getApiKeyP_frame_or (svc : SecretService) (p : Provider) :
    (getApiKeyP svc p).2 = p ∨
    ∃ v idx, getApiKeyP svc p = (some v, { p with currentKeyIndex := some idx }) := by
  obtain ⟨pid0, pn, pe, pkc, pkcs, pcki, pm⟩ := p
  cases pkcs with
  | none => exact Or.inl rfl
  | some kcs =>
    unfold getApiKeyP
    dsimp only
    by_cases hlen : 0 < kcs.length
    · rw [if_pos hlen]
      cases hres : resolveAt svc kcs (pcki.getD 0) with
      | some v => exact Or.inl rfl
      | none =>
        unfold findNextAvailableKeyP
        dsimp only
        rw [if_neg (by omega : ¬ kcs.length = 0)]
        cases hs : scanLoop (resolveAt svc kcs) kcs.length (pcki.getD 0)
            (List.range kcs.length) with
        | none => exact Or.inl rfl
        | some r =>
          obtain ⟨idx, v⟩ := r
          dsimp only
          by_cases heq : idx = pcki.getD 0
          · rw [if_pos heq]
            exact Or.inl rfl
          · rw [if_neg heq]
            exact Or.inr ⟨_, _, rfl⟩
    · rw [if_neg hlen]
      exact Or.inl rfl

/-- `rotateApiKey` either leaves the provider untouched or commits a new
cursor alongside a successfully returned key. -/
theorem rotateApiKeyP_frame_or (svc : SecretService) (p : Provider) :
    (rotateApiKeyP svc p).2 = p ∨
    ∃ v idx, rotateApiKeyP svc p = (some v, { p with currentKeyIndex := some idx }) := by
  unfold rotateApiKeyP
  split
  · exact Or.inl rfl
  · split
    · exact Or.inl rfl
    · dsimp only
      split
      · exact Or.inr ⟨_, _, rfl⟩
      · exact Or.inl rfl

/-- **C10**: whenever `getApiKey` or `rotateApiKey` returns `undefined`, the
settings (the provider's `currentKeyIndex` and every other field) are left
unchanged; and `getApiKey` also leaves the settings unchanged whenever the
key at the current index itself resolves. -/
theorem apiKey_frame (svc : SecretService) (s : Settings) (pid : String) :
    ((getApiKey svc s pid).1 = none → (getApiKey svc s pid).2 = s) ∧
    ((rotateApiKey svc s pid).1 = none → (rotateApiKey svc s pid).2 = s) ∧
    (∀ p kcs v, getProvider s pid = some p → p.keyConfigs = some kcs →
      0 < kcs.length → resolveAt svc kcs (p.currentKeyIndex.getD 0) = some v →
      (getApiKey svc s pid).2 = s) := by
  refine ⟨?_, ?_, ?_⟩
  · intro h
    show { s with providers :=
      (updateFirstWhere (fun q => q.id == pid) (getApiKeyP svc) none s.providers).2 } = s
    cases hfind : s.providers.find? (fun q => q.id == pid) with
    | none => rw [updateFirstWhere_none hfind]
    | some p =>
      rcases getApiKeyP_frame_or svc p with hfr | ⟨v, idx, hupd⟩
      · rw [updateFirstWhere_snd_id hfr hfind]
      · exfalso
        have h1 : (getApiKey svc s pid).1 = (getApiKeyP svc p).1 :=
          updateFirstWhere_fst hfind
        rw [h, hupd] at h1
        exact Option.noConfusion h1
  · intro h
    show { s with providers :=
      (updateFirstWhere (fun q => q.id == pid) (rotateApiKeyP svc) none s.providers).2 } = s
    cases hfind : s.providers.find? (fun q => q.id == pid) with
    | none => rw [updateFirstWhere_none hfind]
    | some p =>
      rcases rotateApiKeyP_frame_or svc p with hfr | ⟨v, idx, hupd⟩
      · rw [updateFirstWhere_snd_id hfr hfind]
      · exfalso
        have h1 : (rotateApiKey svc s pid).1 = (rotateApiKeyP svc p).1 :=
          updateFirstWhere_fst hfind
        rw [h, hupd] at h1
        exact Option.noConfusion h1
  · intro p kcs v hp hk hne hres
    have hP := getApiKeyP_hit svc p kcs hk hne v hres
    show { s with providers :=
      (updateFirstWhere (fun q => q.id == pid) (getApiKeyP svc) none s.providers).2 } = s
    rw [updateFirstWhere_snd_id (show (getApiKeyP svc p).2 = p by rw [hP]) hp]

/-- The C10 witness provider: one resolvable key at the current index. -/
def pW10 : Provider :=
  { id := "p10", name := "P10", endpoint := "e",
    keyConfigs := some [{ mode := .local, localValue := some "k1" }] }

/-- The C10 witness settings. -/
def sW10 : Settings := { providers := [pW10] }

/-- Witness for C10: an unknown provider id leaves the state unchanged for
both calls, and a resolving current key leaves `getApiKey`'s state
unchanged. -/
theorem apiKey_frame_witness :
    (getApiKey none exSettings "missing").2 = exSettings ∧
    (rotateApiKey none exSettings "missing").2 = exSettings ∧
    (getApiKey none sW10 "p10").2 = sW10 := by
  refine ⟨(apiKey_frame none exSettings "missing").1 (by rfl),
    (apiKey_frame none exSettings "missing").2.1 (by rfl),
    (apiKey_frame none sW10 "p10").2.2 pW10
      [{ mode := .local, localValue := some "k1" }] "k1" rfl rfl (by decide) (by rfl)⟩

/-! ## Model CRUD: validation, addModel, updateModel
(`ConfigManager.validateModelConfig`, `addModel`, `updateModel`) -/

/-- The whitespace set of JavaScript `String.prototype.trim` (ASCII
whitespace plus the common Unicode space characters; exotic Zs code points
are omitted, no string in this development contains them). -/
def isJsWhitespace (c : Char) : Bool :=
  c = ' ' ∨ c = '\t' ∨ c = '\n' ∨ c = '\r' ∨ c = '\x0b' ∨ c = '\x0c' ∨
  c = '\u00A0' ∨ c = '\uFEFF' ∨ c = '\u2028' ∨ c = '\u2029'

/-- JavaScript `trim` on a character list: drop whitespace from both ends. -/
def jsTrimList (l : List Char) : List Char :=
  ((l.dropWhile isJsWhitespace).reverse.dropWhile isJsWhitespace).reverse

/-- JavaScript `String.prototype.trim`. -/
def jsTrim (s : String) : String :=
  String.mk (jsTrimList s.data)

/-- The `maxOutputTokens` clause of `validateModelConfig`:
`model.maxOutputTokens !== undefined && (!Number.isInteger(v) || v < 0)`.
`Number.isInteger` on a rational means denominator 1. -/
def invalidMaxOutputTokens : Option ℚ → Bool
  | none => false
  | some v => decide (v.den ≠ 1) || decide (v < 0)

/-- `ConfigManager.validateModelConfig`: name required (non-empty after
trimming), `temperature ∈ [0,2]`, `maxOutputTokens` (when defined) a
non-negative integer, `topP ∈ [0,1]`; checks in source order, first failure
throws. -/
def validateModelConfig (m : ModelConfig) : Except String Unit :=
  if m.name = "" ∨ jsTrim m.name = "" then
    .error "Model name is required"
  else if m.temperature < 0 ∨ 2 < m.temperature then
    .error "Invalid parameter: temperature must be between 0 and 2"
  else if invalidMaxOutputTokens m.maxOutputTokens then
    .error "Invalid parameter: maxOutputTokens must be a non-negative integer"
  else if m.topP < 0 ∨ 1 < m.topP then
    .error "Invalid parameter: topP must be between 0 and 1"
  else
    .ok ()

/-- A `Partial<Omit<ModelConfig, 'id'>>` update object: a field is changed
exactly when the corresponding entry is present. -/
structure ModelUpdates where
  name : Option String := none
  displayName : Option String := none
  temperature : Option ℚ := none
  topP : Option ℚ := none
  maxTokens : Option (Option ℚ) := none
  maxOutputTokens : Option (Option ℚ) := none
  apiFormat : Option (Option String) := none
  reasoningEffort : Option (Option String) := none
deriving DecidableEq, Repr

/-- The merge `{ ...model, ...updates }` (also the effect of
`Object.assign(model, updates)`). -/
def applyUpdates (m : ModelConfig) (u : ModelUpdates) : ModelConfig :=
  { m with
    name := u.name.getD m.name,
    displayName := u.displayName.getD m.displayName,
    temperature := u.temperature.getD m.temperature,
    topP := u.topP.getD m.topP,
    maxTokens := u.maxTokens.getD m.maxTokens,
    maxOutputTokens := u.maxOutputTokens.getD m.maxOutputTokens,
    apiFormat := u.apiFormat.getD m.apiFormat,
    reasoningEffort := u.reasoningEffort.getD m.reasoningEffort }

/-- Mutate the first provider matching `pred` in place (JavaScript object
mutation through the reference handed out by `find`). -/
def mapFirstWhere (pred : Provider → Bool) (f : Provider → Provider) :
    List Provider → List Provider
  | [] => []
  | p :: ps => if pred p then f p :: ps else p :: mapFirstWhere pred f ps

/-- Mutate the first model matching `pred` in place. -/
def mapFirstModelWhere (pred : ModelConfig → Bool) (f : ModelConfig → ModelConfig) :
    List ModelConfig → List ModelConfig
  | [] => []
  | m :: ms => if pred m then f m :: ms else m :: mapFirstModelWhere pred f ms

/-- The settings state after `addModel` pushes `newModel` onto the matched
provider's model list. -/
def addModelResult (s : Settings) (providerId : String) (newModel : ModelConfig) : Settings :=
  let ps := mapFirstWhere (fun q => q.id == providerId)
    (fun q => { q with models := q.models ++ [newModel] }) s.providers
  { s with providers := ps }

/-- `ConfigManager.addModel`: provider must exist, the model fields are
validated, then the model is pushed with a fresh id (`generateId()` is
nondeterministic and passed in as `newId`; the `id` field of the argument is
ignored, as in `Omit<ModelConfig, 'id'>`). -/
def addModel (s : Settings) (providerId : String) (model : ModelConfig) (newId : String) :
    Except String (Settings × ModelConfig) :=
  match getProvider s providerId with
  | none => .error ("Provider not found: " ++ providerId)
  | some _ =>
    match validateModelConfig model with
    | .error e => .error e
    | .ok _ =>
      let newModel := { model with id := newId }
      .ok (addModelResult s providerId newModel, newModel)

/-- The settings state after `updateModel` applies `updates` in place to the
matched model of the matched provider. -/
def updateModelResult (s : Settings) (providerId modelId : String)
    (updates : ModelUpdates) : Settings :=
  let ps := mapFirstWhere (fun q => q.id == providerId)
    (fun q =>
      let ms := mapFirstModelWhere (fun mm => mm.id == modelId)
        (fun mm => applyUpdates mm updates) q.models
      { q with models := ms })
    s.providers
  { s with providers := ps }

/-- `ConfigManager.updateModel`: provider and model must exist, the merged
model `{ ...model, ...updates }` is validated, then the updates are applied
in place. -/
def updateModel (s : Settings) (providerId modelId : String) (updates : ModelUpdates) :
    Except String Settings :=
  match getProvider s providerId with
  | none => .error ("Provider not found: " ++ providerId)
  | some provider =>
    match findModel provider modelId with
    | none => .error ("Model not found: " ++ providerId ++ "/" ++ modelId)
    | some model =>
      match validateModelConfig (applyUpdates model updates) with
      | .error e => .error e
      | .ok _ => .ok (updateModelResult s providerId modelId updates)

/-- The claim's notion of invalid model parameters: empty (trimmed) name,
temperature outside `[0,2]`, topP outside `[0,1]`, or a defined
max-output-tokens that is not a non-negative integer. -/
def invalidModelParams (m : ModelConfig) : Prop :=
  jsTrim m.name = "" ∨ m.temperature < 0 ∨ 2 < m.temperature ∨
  (∃ v, m.maxOutputTokens = some v ∧ (v.den ≠ 1 ∨ v < 0)) ∨
  m.topP < 0 ∨ 1 < m.topP

theorem invalidMaxOutputTokens_iff (o : Option ℚ) :
    invalidMaxOutputTokens o = true ↔ ∃ v, o = some v ∧ (v.den ≠ 1 ∨ v < 0) := by
  cases o with
  | none => simp [invalidMaxOutputTokens]
  | some v => simp [invalidMaxOutputTokens, decide_eq_true_iff]

/-- An empty name has an empty trim (so the `!model.name` disjunct of the
source check is subsumed). -/
theorem name_empty_trim (m : ModelConfig) (h : m.name = "") : jsTrim m.name = "" := by
  rw [h]
  rfl

/-- `validateModelConfig` rejects exactly the invalid parameter
combinations. -/
theorem validateModelConfig_error_iff (m : ModelConfig) :
    (∃ msg, validateModelConfig m = .error msg) ↔ invalidModelParams m := by
  unfold validateModelConfig
  split_ifs with h1 h2 h3 h4
  · simp only [Except.error.injEq, exists_eq']
    constructor
    · intro _
      rcases h1 with h1 | h1
      · exact Or.inl (name_empty_trim m h1)
      · exact Or.inl h1
    · intro _; trivial
  · simp only [Except.error.injEq, exists_eq']
    refine ⟨fun _ => ?_, fun _ => trivial⟩
    exact Or.inr (by tauto)
  · simp only [Except.error.injEq, exists_eq']
    refine ⟨fun _ => ?_, fun _ => trivial⟩
    have hmx := (invalidMaxOutputTokens_iff m.maxOutputTokens).mp h3
    exact Or.inr (Or.inr (Or.inr (Or.inl hmx)))
  · simp only [Except.error.injEq, exists_eq']
    refine ⟨fun _ => ?_, fun _ => trivial⟩
    exact Or.inr (Or.inr (Or.inr (Or.inr (by tauto))))
  · constructor
    · rintro ⟨msg, hmsg⟩
      simp at hmsg
    · intro hinv
      exfalso
      rcases hinv with h | h | h | h | h | h
      · exact h1 (Or.inr h)
      · exact h2 (Or.inl h)
      · exact h2 (Or.inr h)
      · exact h3 ((invalidMaxOutputTokens_iff m.maxOutputTokens).mpr h)
      · exact h4 (Or.inl h)
      · exact h4 (Or.inr h)

/-- **C6**: `addModel` and `updateModel` throw a descriptive error exactly
when the (merged) model has invalid parameters — the `Except` error branch
carries no state, so the stored settings are untouched — and otherwise apply
the mutation with the model exactly as given (no clamping): the new/updated
model appears verbatim in the result. -/
theorem modelValidation_spec (s : Settings) (pid : String) (prov : Provider)
    (hp : getProvider s pid = some prov) :
    (∀ model newId,
      ((∃ msg, addModel s pid model newId = .error msg) ↔ invalidModelParams model) ∧
      (validateModelConfig model = .ok () →
        addModel s pid model newId =
          .ok (addModelResult s pid { model with id := newId },
               { model with id := newId }))) ∧
    (∀ mid updates model, findModel prov mid = some model →
      ((∃ msg, updateModel s pid mid updates = .error msg) ↔
        invalidModelParams (applyUpdates model updates)) ∧
      (validateModelConfig (applyUpdates model updates) = .ok () →
        updateModel s pid mid updates =
          .ok (updateModelResult s pid mid updates))) := by
  constructor
  · intro model newId
    constructor
    · rw [← validateModelConfig_error_iff]
      unfold addModel
      rw [hp]
      cases hv : validateModelConfig model with
      | error e => simp
      | ok u => simp
    · intro hv
      unfold addModel
      rw [hp, hv]
  · intro mid updates model hm
    constructor
    · rw [← validateModelConfig_error_iff]
      unfold updateModel
      simp only [hp, hm]
      cases hv : validateModelConfig (applyUpdates model updates) with
      | error e => simp
      | ok u => simp
    · intro hv
      unfold updateModel
      simp only [hp, hm, hv]

/-- Witness for C6: on the example settings, a temperature-3 model is
rejected exactly as `invalidModelParams` predicts, and a valid model is
appended verbatim. -/
theorem modelValidation_spec_witness :
    ((∃ msg, addModel exSettings "p1"
        { id := "", name := "m", displayName := "M", temperature := 3, topP := 1 } "m9" =
      .error msg) ↔
      invalidModelParams
        { id := "", name := "m", displayName := "M", temperature := 3, topP := 1 }) ∧
    addModel exSettings "p1"
        { id := "", name := "m", displayName := "M", temperature := 1, topP := 1 } "m9" =
      .ok (addModelResult exSettings "p1"
            { id := "m9", name := "m", displayName := "M", temperature := 1, topP := 1 },
           { id := "m9", name := "m", displayName := "M", temperature := 1, topP := 1 }) := by
  have h := (modelValidation_spec exSettings "p1" exProvider rfl).1
  exact ⟨(h { id := "", name := "m", displayName := "M", temperature := 3, topP := 1 } "m9").1,
    (h { id := "", name := "m", displayName := "M", temperature := 1, topP := 1 } "m9").2
      (by rfl)⟩

/-! ## Provider deletion and binding resets
(`ConfigManager.deleteProvider`, `resetBindingsForProvider`) -/

/-- One iteration of the `resetBindingsForProvider` loop: a binding of this
feature that references the provider is replaced by the feature's entry in
`DEFAULT_FEATURE_BINDINGS` (spread-copied) or deleted when there is none. -/
def resetStep (defaults : AIFeature → Option FeatureBinding) (providerId : String)
    (acc : Settings) (feature : AIFeature) : Settings :=
  match getFeatureBinding acc feature with
  | some binding =>
    if binding.providerId == providerId then
      match defaults feature with
      | some db =>
        { acc with featureBindings := Function.update acc.featureBindings feature (some db) }
      | none =>
        { acc with featureBindings := Function.update acc.featureBindings feature none }
    else acc
  | none => acc

/-- The voice post-processing reset of `resetBindingsForProvider`. -/
def resetVoicePost (providerId : String) (s : Settings) : Settings :=
  match s.voice with
  | some v =>
    if v.postProcessingProviderId == some providerId then
      let v2 : VoiceSettings :=
        { v with postProcessingProviderId := none, postProcessingModelId := none }
      { s with voice := some v2 }
    else s
  | none => s

/-- The voice assistant reset of `resetBindingsForProvider`. -/
def resetVoiceAssistant (providerId : String) (s : Settings) : Settings :=
  match s.voice with
  | some v =>
    match v.assistantConfig with
    | some ac =>
      if ac.providerId == some providerId then
        let ac2 : AssistantConfig := { ac with providerId := none, modelId := none }
        let v2 : VoiceSettings := { v with assistantConfig := some ac2 }
        { s with voice := some v2 }
      else s
    | none => s
  | none => s

/-- `ConfigManager.resetBindingsForProvider`: reset every feature binding
referencing the provider, then the voice post-processing and assistant
references.  `DEFAULT_FEATURE_BINDINGS` lives in the settings module, which
is not under the analysed tree as a named file; it is passed as the
`defaults` parameter (see `defaultFeatureBindings` for the repository's
snapshot value). -/
def resetBindingsForProvider (defaults : AIFeature → Option FeatureBinding)
    (providerId : String) (s : Settings) : Settings :=
  resetVoiceAssistant providerId
    (resetVoicePost providerId (allFeatures.foldl (resetStep defaults providerId) s))

/-- `splice` of the first matching provider. -/
def removeFirstWhere (pred : Provider → Bool) : List Provider → List Provider
  | [] => []
  | p :: ps => if pred p then ps else p :: removeFirstWhere pred ps

/-- `ConfigManager.deleteProvider`: error if the id is unknown; otherwise
reset all references first, then splice the provider (and with it all its
models) out of the list. -/
def deleteProvider (defaults : AIFeature → Option FeatureBinding) (s : Settings)
    (id : String) : Except String Settings :=
  if (s.providers.find? (fun p => p.id == id)).isNone then
    .error ("Provider not found: " ++ id)
  else
    let s₁ := resetBindingsForProvider defaults id s
    .ok { s₁ with providers := removeFirstWhere (fun p => p.id == id) s₁.providers }

/-- `DEFAULT_FEATURE_BINDINGS` as found in the repository's settings-module
snapshot: only `naming` has a default, with placeholder empty provider and
model ids.  (The prompt-template text is irrelevant to every property proved
here and abbreviated to its constant's name.) -/
def defaultFeatureBindings : AIFeature → Option FeatureBinding
  | .naming => some { providerId := "", modelId := "",
                      promptTemplate := "ADVANCED_PROMPT_TEMPLATE" }
  | _ => none

/-! ### Properties of the reset pass -/

theorem resetStep_frame (d : AIFeature → Option FeatureBinding) (pid : String)
    (acc : Settings) (f : AIFeature) :
    (resetStep d pid acc f).providers = acc.providers ∧
    (resetStep d pid acc f).voice = acc.voice := by
  unfold resetStep
  cases hb : getFeatureBinding acc f with
  | none => exact ⟨rfl, rfl⟩
  | some binding =>
    dsimp only
    by_cases hmat : (binding.providerId == pid) = true
    · rw [if_pos hmat]
      cases hd : d f with
      | some db => exact ⟨rfl, rfl⟩
      | none => exact ⟨rfl, rfl⟩
    · rw [if_neg hmat]
      exact ⟨rfl, rfl⟩

theorem resetStep_self (d : AIFeature → Option FeatureBinding) (pid : String)
    (acc : Settings) (f : AIFeature)
    (hdef : ∀ g db, d g = some db → db.providerId ≠ pid) :
    ∀ b', getFeatureBinding (resetStep d pid acc f) f = some b' → b'.providerId ≠ pid := by
  intro b' hb'
  unfold resetStep at hb'
  cases hb : getFeatureBinding acc f with
  | none =>
    rw [hb] at hb'
    dsimp only at hb'
    rw [hb] at hb'
    exact absurd hb' (by simp)
  | some binding =>
    rw [hb] at hb'
    dsimp only at hb'
    by_cases hmat : (binding.providerId == pid) = true
    · rw [if_pos hmat] at hb'
      cases hd : d f with
      | some db =>
        rw [hd] at hb'
        dsimp only at hb'
        rw [show getFeatureBinding
            { acc with featureBindings := Function.update acc.featureBindings f (some db) } f =
            Function.update acc.featureBindings f (some db) f from rfl,
          Function.update_same] at hb'
        cases Option.some.inj hb'
        exact hdef f _ hd
      | none =>
        rw [hd] at hb'
        dsimp only at hb'
        rw [show getFeatureBinding
            { acc with featureBindings := Function.update acc.featureBindings f none } f =
            Function.update acc.featureBindings f none f from rfl,
          Function.update_same] at hb'
        exact absurd hb' (by simp)
    · rw [if_neg hmat] at hb'
      rw [hb] at hb'
      cases Option.some.inj hb'
      simpa using hmat

theorem resetStep_ne (d : AIFeature → Option FeatureBinding) (pid : String)
    (acc : Settings) (f g : AIFeature) (hne : g ≠ f) :
    getFeatureBinding (resetStep d pid acc f) g = getFeatureBinding acc g := by
  unfold resetStep
  cases hb : getFeatureBinding acc f with
  | none => rfl
  | some binding =>
    dsimp only
    by_cases hmat : (binding.providerId == pid) = true
    · rw [if_pos hmat]
      cases hd : d f with
      | some db =>
        show Function.update acc.featureBindings f (some db) g = _
        rw [Function.update_noteq hne]
        rfl
      | none =>
        show Function.update acc.featureBindings f none g = _
        rw [Function.update_noteq hne]
        rfl
    · rw [if_neg hmat]

theorem foldl_resetStep_frame (d : AIFeature → Option FeatureBinding) (pid : String) :
    ∀ (fs : List AIFeature) (acc : Settings),
      (fs.foldl (resetStep d pid) acc).providers = acc.providers ∧
      (fs.foldl (resetStep d pid) acc).voice = acc.voice := by
  intro fs
  induction fs with
  | nil => intro acc; exact ⟨rfl, rfl⟩
  | cons g gs ih =>
    intro acc
    rw [List.foldl_cons]
    obtain ⟨h1, h2⟩ := ih (resetStep d pid acc g)
    obtain ⟨h3, h4⟩ := resetStep_frame d pid acc g
    exact ⟨h1.trans h3, h2.trans h4⟩

theorem foldl_resetStep_spec (d : AIFeature → Option FeatureBinding) (pid : String)
    (hdef : ∀ g db, d g = some db → db.providerId ≠ pid) :
    ∀ (fs : List AIFeature) (acc : Settings),
      (∀ f, f ∈ fs → ∀ b, getFeatureBinding (fs.foldl (resetStep d pid) acc) f = some b →
        b.providerId ≠ pid) ∧
      (∀ f, f ∉ fs → getFeatureBinding (fs.foldl (resetStep d pid) acc) f =
        getFeatureBinding acc f) := by
  intro fs
  induction fs with
  | nil =>
    intro acc
    exact ⟨fun f hf => absurd hf (List.not_mem_nil f), fun f _ => rfl⟩
  | cons g gs ih =>
    intro acc
    rw [List.foldl_cons]
    constructor
    · intro f hf b hb
      by_cases hmem : f ∈ gs
      · exact (ih (resetStep d pid acc g)).1 f hmem b hb
      · have hfg : f = g := by
          rcases List.mem_cons.mp hf with h | h
          · exact h
          · exact absurd h hmem
        subst hfg
        rw [(ih (resetStep d pid acc f)).2 f hmem] at hb
        exact resetStep_self d pid acc f hdef b hb
    · intro f hf
      have hfg : f ≠ g := fun h => hf (h ▸ List.mem_cons_self g gs)
      have hfgs : f ∉ gs := fun h => hf (List.mem_cons_of_mem g h)
      rw [(ih (resetStep d pid acc g)).2 f hfgs, resetStep_ne d pid acc g f hfg]

theorem resetVoice_spec (pid : String) (s : Settings) :
    (resetVoiceAssistant pid (resetVoicePost pid s)).providers = s.providers ∧
    (resetVoiceAssistant pid (resetVoicePost pid s)).featureBindings = s.featureBindings ∧
    (∀ v, (resetVoiceAssistant pid (resetVoicePost pid s)).voice = some v →
      v.postProcessingProviderId ≠ some pid ∧
      ∀ ac, v.assistantConfig = some ac → ac.providerId ≠ some pid) := by
  unfold resetVoicePost
  cases hv : s.voice with
  | none =>
    unfold resetVoiceAssistant
    rw [hv]
    exact ⟨rfl, rfl, fun v h => absurd (hv ▸ h) (by rw [hv] at h; simp_all)⟩
  | some v =>
    dsimp only
    by_cases hpost : (v.postProcessingProviderId == some pid) = true
    · rw [if_pos hpost]
      unfold resetVoiceAssistant
      dsimp only
      cases hac : v.assistantConfig with
      | none =>
        refine ⟨rfl, rfl, ?_⟩
        intro v' hv'
        cases Option.some.inj hv'
        exact ⟨by simp, fun ac hac' => absurd (hac ▸ hac') (by simp [hac] at hac' ⊢)⟩
      | some ac =>
        dsimp only
        by_cases hass : (ac.providerId == some pid) = true
        · rw [if_pos hass]
          refine ⟨rfl, rfl, ?_⟩
          intro v' hv'
          cases Option.some.inj hv'
          refine ⟨by simp, fun ac' hac' => ?_⟩
          cases Option.some.inj hac'
          simp
        · rw [if_neg hass]
          refine ⟨rfl, rfl, ?_⟩
          intro v' hv'
          cases Option.some.inj hv'
          refine ⟨by simp, fun ac' hac' => ?_⟩
          cases Option.some.inj hac'
          simpa using hass
    · rw [if_neg hpost]
      unfold resetVoiceAssistant
      rw [hv]
      dsimp only
      cases hac : v.assistantConfig with
      | none =>
        refine ⟨rfl, rfl, ?_⟩
        intro v' hv'
        rw [hv] at hv'
        cases Option.some.inj hv'
        exact ⟨by simpa using hpost,
          fun ac hac' => absurd (hac ▸ hac') (by simp [hac] at hac' ⊢)⟩
      | some ac =>
        dsimp only
        by_cases hass : (ac.providerId == some pid) = true
        · rw [if_pos hass]
          refine ⟨rfl, rfl, ?_⟩
          intro v' hv'
          cases Option.some.inj hv'
          refine ⟨by simpa using hpost, fun ac' hac' => ?_⟩
          cases Option.some.inj hac'
          simp
        · rw [if_neg hass]
          refine ⟨rfl, rfl, ?_⟩
          intro v' hv'
          rw [hv] at hv'
          cases Option.some.inj hv'
          refine ⟨by simpa using hpost, fun ac' hac' => ?_⟩
          rw [hac] at hac'
          cases Option.some.inj hac'
          simpa using hass

theorem removeFirstWhere_id_ne (id : String) :
    ∀ (l : List Provider), (l.map (·.id)).Nodup →
      ∀ p ∈ removeFirstWhere (fun q => q.id == id) l, p.id ≠ id := by
  intro l
  induction l with
  | nil => intro _ p hp; exact absurd hp (List.not_mem_nil p)
  | cons q qs ih =>
    intro hnd p hp
    rw [List.map_cons, List.nodup_cons] at hnd
    unfold removeFirstWhere at hp
    by_cases hq : (q.id == id) = true
    · rw [if_pos hq] at hp
      have hqid : q.id = id := by simpa using hq
      intro hpid
      exact hnd.1 (hqid ▸ hpid ▸ List.mem_map_of_mem (·.id) hp)
    · rw [if_neg hq] at hp
      rcases List.mem_cons.mp hp with rfl | hp'
      · simpa using hq
      · exact ih hnd.2 p hp'

/-! ## C5: deleteProvider leaves no references behind -/

/-- **C5, amended**: after a successful `deleteProvider id` (ids unique, and
no default binding references `id` — the defaults carry fixed placeholder
ids), the provider and all its models are gone, no feature binding
references `id` any more (each affected binding was reset to its feature's
default or removed), and the voice post-processing and assistant
configurations no longer reference `id`.  A binding reset to a default may
still carry the default's placeholder provider id, which names no existing
provider (see the counterexample for the original claim's final clause). -/
theorem deleteProvider_spec (defaults : AIFeature → Option FeatureBinding)
    (s : Settings) (id : String) (s' : Settings)
    (hdel : deleteProvider defaults s id = .ok s')
    (hnodup : (s.providers.map (·.id)).Nodup)
    (hdef : ∀ f db, defaults f = some db → db.providerId ≠ id) :
    (∀ p ∈ s'.providers, p.id ≠ id) ∧
    (∀ f b, getFeatureBinding s' f = some b → b.providerId ≠ id) ∧
    (∀ v, s'.voice = some v → v.postProcessingProviderId ≠ some id ∧
      ∀ ac, v.assistantConfig = some ac → ac.providerId ≠ some id) := by
  unfold deleteProvider at hdel
  by_cases hfound : (s.providers.find? (fun p => p.id == id)).isNone = true
  · rw [if_pos hfound] at hdel
    exact absurd hdel (by simp)
  · rw [if_neg hfound] at hdel
    have hs' := Option.some.inj (Except.ok.inj hdel ▸ rfl : some s' = some s')
    have hsval : s' = { resetBindingsForProvider defaults id s with
        providers := removeFirstWhere (fun p => p.id == id)
          (resetBindingsForProvider defaults id s).providers } := by
      exact (Except.ok.inj hdel).symm
    subst hsval
    set s₁ := resetBindingsForProvider defaults id s with hs₁
    have hfold := foldl_resetStep_spec defaults id hdef allFeatures s
    have hvoice := resetVoice_spec id (allFeatures.foldl (resetStep defaults id) s)
    have hfoldframe := foldl_resetStep_frame defaults id allFeatures s
    refine ⟨?_, ?_, ?_⟩
    · intro p hp
      have hprov : s₁.providers = s.providers := by
        rw [hs₁]
        unfold resetBindingsForProvider
        rw [hvoice.1, hfoldframe.1]
      rw [hprov] at hp
      exact removeFirstWhere_id_ne id s.providers hnodup p hp
    · intro f b hb
      have hfb : getFeatureBinding s₁ f =
          getFeatureBinding (allFeatures.foldl (resetStep defaults id) s) f := by
        rw [hs₁]
        unfold resetBindingsForProvider
        show (resetVoiceAssistant id (resetVoicePost id _)).featureBindings f = _
        rw [hvoice.2.1]
        rfl
      have hmem : f ∈ allFeatures := by cases f <;> simp [allFeatures]
      exact hfold.1 f hmem b (by rw [← hfb]; exact hb)
    · intro v hv
      exact hvoice.2.2 v hv

/-- C5 counterexample provider (referenced by the `naming` binding). -/
def pC5 : Provider :=
  { id := "p1", name := "P", endpoint := "e",
    models := [{ id := "m1", name := "m", displayName := "M",
                 temperature := 1, topP := 1 }] }

/-- C5 counterexample settings: `naming` is bound to the provider that will
be deleted. -/
def sC5 : Settings :=
  { providers := [pC5],
    featureBindings := fun f =>
      match f with
      | .naming => some { providerId := "p1", modelId := "m1", promptTemplate := "t" }
      | _ => none }

/-- **C5, counterexample to the final clause**: deleting the provider resets
the `naming` binding to the snapshot default, whose placeholder provider id
`""` names no existing provider — so a feature binding pointing at a
nonexistent provider *does* remain (it resolves as unconfigured). -/
theorem deleteProvider_counterexample :
    ∃ s', deleteProvider defaultFeatureBindings sC5 "p1" = .ok s' ∧
      ∃ b, getFeatureBinding s' .naming = some b ∧
        ∀ p ∈ s'.providers, p.id ≠ b.providerId := by
  refine ⟨_, rfl, ?_⟩
  refine ⟨{ providerId := "", modelId := "", promptTemplate := "ADVANCED_PROMPT_TEMPLATE" },
    ?_, ?_⟩
  · rfl
  · intro p hp
    exact absurd hp (List.not_mem_nil p)

/-- Witness for the amended C5, at the counterexample input: no provider or
binding (or voice config) still references `"p1"` after deletion. -/
theorem deleteProvider_spec_witness :
    ∃ s', deleteProvider defaultFeatureBindings sC5 "p1" = .ok s' ∧
      (∀ p ∈ s'.providers, p.id ≠ "p1") ∧
      (∀ f b, getFeatureBinding s' f = some b → b.providerId ≠ "p1") ∧
      (∀ v, s'.voice = some v → v.postProcessingProviderId ≠ some "p1" ∧
        ∀ ac, v.assistantConfig = some ac → ac.providerId ≠ some "p1") := by
  refine ⟨_, rfl, ?_⟩
  refine deleteProvider_spec defaultFeatureBindings sC5 "p1" _ rfl (by decide) ?_
  intro f db h
  cases f <;> simp only [defaultFeatureBindings] at h
  · cases Option.some.inj h
    decide
  all_goals exact absurd h (by simp)

/-! ### Responses API request building (`AIService.buildResponsesRequest`) -/

/-- The nested `reasoning` object of a Responses API request body. -/
structure ReasoningParam where
  effort : String
deriving DecidableEq, Repr

/-- `ResponsesAPIRequest` (aiService.ts): the request body built for the
`/v1/responses` endpoint.  `max_output_tokens` is optional (set only when
`maxTokens > 0`). -/
structure ResponsesAPIRequest where
  model : String
  input : String
  reasoning : ReasoningParam
  max_output_tokens : Option ℚ := none
deriving DecidableEq, Repr

/-- The typed error thrown by `buildResponsesRequest`
(`InvalidReasoningEffortError` from errors.ts, carrying `providedValue`). -/
inductive NamingError where
  | invalidReasoningEffort (providedValue : String)
deriving DecidableEq, Repr

/-- `validEfforts` (aiService.ts:784). -/
def validEfforts : List String := ["low", "medium", "high"]

/-- `model.reasoningEffort || 'medium'` (aiService.ts:781): JS truthiness, so
both `undefined` and the empty string fall back to `'medium'`. -/
def effectiveReasoningEffort (model : ModelConfig) : String :=
  match model.reasoningEffort with
  | some s => if s = "" then "medium" else s
  | none => "medium"

/-- `AIService.buildResponsesRequest` (aiService.ts:779-803): validate the
effective effort against `validEfforts` (the `throw new
InvalidReasoningEffortError(...)` is rendered as `Except.error`), then build
the request; the `if (model.maxTokens && model.maxTokens > 0)` guard is
truthiness (`≠ 0`) conjoined with the comparison. -/
def buildResponsesRequest (model : ModelConfig) (prompt : String) :
    Except NamingError ResponsesAPIRequest :=
  if validEfforts.contains (effectiveReasoningEffort model) then
    .ok (ResponsesAPIRequest.mk model.name prompt
      (ReasoningParam.mk (effectiveReasoningEffort model))
      (match model.maxTokens with
        | some v => if v ≠ 0 ∧ 0 < v then some v else none
        | none => none))
  else
    .error (.invalidReasoningEffort (effectiveReasoningEffort model))

/-- Example model whose `reasoningEffort` is set to the empty string. -/
def mC8 : ModelConfig :=
  { id := "m1", name := "o3", displayName := "o3", temperature := 1, topP := 1,
    reasoningEffort := some "" }

/-- C8 counterexample: the claim says a `reasoningEffort` set to a value
outside `{low, medium, high}` makes the build raise
`InvalidReasoningEffortError`, but the empty string is such a value and the
build succeeds with effort `"medium"` instead: `reasoningEffort || 'medium'`
treats `""` as unset before the validation runs. -/
theorem buildResponsesRequest_counterexample :
    mC8.reasoningEffort = some "" ∧ "" ∉ validEfforts ∧
    buildResponsesRequest mC8 "p" =
      .ok (ResponsesAPIRequest.mk "o3" "p" (ReasoningParam.mk "medium") none) := by
  refine ⟨rfl, by decide, rfl⟩

/-- C8 (amended): `buildResponsesRequest model prompt` returns
`InvalidReasoningEffortError s` whenever `model.reasoningEffort` is a
non-empty string `s` outside `{low, medium, high}` (the builder is a pure
function evaluated before any transport), and every successful build carries
`model.name`, the prompt, effort equal to the model's `reasoningEffort` when
that is non-empty and `"medium"` otherwise, and `max_output_tokens = v`
exactly when `maxTokens = v > 0`.  The original claim's "any value outside
the set raises" fails at `reasoningEffort = ""` (see the counterexample). -/
theorem buildResponsesRequest_spec (model : ModelConfig) (prompt : String) :
    (∀ s, model.reasoningEffort = some s → validEfforts.contains s = false → s ≠ "" →
      buildResponsesRequest model prompt = .error (.invalidReasoningEffort s)) ∧
    (∀ r, buildResponsesRequest model prompt = .ok r →
      r.model = model.name ∧ r.input = prompt ∧
      r.reasoning.effort = effectiveReasoningEffort model ∧
      (∀ v : ℚ, r.max_output_tokens = some v ↔ model.maxTokens = some v ∧ 0 < v)) := by
  have heff : ∀ s, model.reasoningEffort = some s → s ≠ "" →
      effectiveReasoningEffort model = s := by
    intro s hs hne
    unfold effectiveReasoningEffort
    rw [hs]
    exact if_neg hne
  constructor
  · intro s hs hnc hne
    unfold buildResponsesRequest
    rw [heff s hs hne, hnc]
    rfl
  · intro r hr
    unfold buildResponsesRequest at hr
    split at hr
    · cases hr
      refine ⟨rfl, rfl, rfl, ?_⟩
      intro v
      dsimp only
      cases hmt : model.maxTokens with
      | none => simp
      | some w =>
        dsimp only
        by_cases hw : w ≠ 0 ∧ 0 < w
        · rw [if_pos hw]
          constructor
          · intro h
            cases h
            exact ⟨rfl, hw.2⟩
          · intro h
            cases h.1
            rfl
        · rw [if_neg hw]
          constructor
          · intro h
            cases h
          · intro h
            cases h.1
            exact absurd ⟨fun h0 => by rw [h0] at h; exact lt_irrefl 0 h.2, h.2⟩ hw
    · cases hr

/-- Example model with a non-empty invalid `reasoningEffort` and a positive
`maxTokens`, and the request the valid sibling `mC8v` builds. -/
def mC8x : ModelConfig :=
  { id := "m2", name := "o4", displayName := "o4", temperature := 1, topP := 1,
    maxTokens := some 64, reasoningEffort := some "extreme" }

/-- Example model with a valid `reasoningEffort` and a positive `maxTokens`. -/
def mC8v : ModelConfig :=
  { id := "m3", name := "o4-mini", displayName := "o4 mini", temperature := 1, topP := 1,
    maxTokens := some 64, reasoningEffort := some "high" }

/-- The request `buildResponsesRequest mC8v "p"` produces. -/
def rC8v : ResponsesAPIRequest :=
  ResponsesAPIRequest.mk "o4-mini" "p" (ReasoningParam.mk "high") (some 64)

/-- C8 witness: the amended theorem applied at `mC8x` (effort `"extreme"`
rejected) and at `mC8v` (successful build characterised). -/
theorem buildResponsesRequest_spec_witness :
    buildResponsesRequest mC8x "p" = .error (.invalidReasoningEffort "extreme") ∧
    (rC8v.model = mC8v.name ∧ rC8v.input = "p" ∧ rC8v.reasoning.effort = "high" ∧
      (rC8v.max_output_tokens = some 64 ↔ mC8v.maxTokens = some 64 ∧ (0 : ℚ) < 64)) := by
  constructor
  · exact (buildResponsesRequest_spec mC8x "p").1 "extreme" rfl (by decide) (by decide)
  · have h := (buildResponsesRequest_spec mC8v "p").2 rC8v (by rfl)
    exact ⟨h.1, h.2.1, h.2.2.1.trans (by rfl), h.2.2.2 64⟩

/-! ### Endpoint normalization (`AIService.normalizeEndpoint`) -/

/-- Index of the first occurrence of `sub` in a character list
(`String.prototype.indexOf`); `none` when absent. -/
def findSub (sub : List Char) : List Char → Option Nat
  | [] => if sub.isPrefixOf ([] : List Char) then some 0 else none
  | c :: t => if sub.isPrefixOf (c :: t) then some 0 else (findSub sub t).map (· + 1)

/-- `String.prototype.includes`: `sub` occurs contiguously in `l`. -/
def jsIncludes (l sub : List Char) : Bool :=
  (findSub sub l).isSome

/-- `normalized.match(/^https?:\/\//i)` (aiService.ts:824): case-insensitive
`http://` or `https://` prefix. -/
def hasHttpScheme (l : List Char) : Bool :=
  "http://".data.isPrefixOf (l.map Char.toLower) ||
  "https://".data.isPrefixOf (l.map Char.toLower)

/-- `normalized.replace(/\/+$/, '')` (aiService.ts:833): drop all trailing
slashes. -/
def stripTrailingSlashes (l : List Char) : List Char :=
  (l.reverse.dropWhile (fun c => c == '/')).reverse

/-- `commonPaths` (aiService.ts:836-841). -/
def commonPaths : List (List Char) :=
  ["/v1/chat/completions".data, "/chat/completions".data,
   "/v1/completions".data, "/completions".data]

/-- The pathname of an absolute URL past its `scheme://`: take the authority
(up to `/`, `?` or `#`; empty authority makes the URL constructor throw),
then the path up to `?` or `#`, or `/` when no path follows. -/
def urlPathnameOf (rest : List Char) : Option (List Char) :=
  if (rest.takeWhile (fun c => !(c == '/' || c == '?' || c == '#'))).isEmpty then none
  else
    match rest.drop (rest.takeWhile (fun c => !(c == '/' || c == '?' || c == '#'))).length with
    | '/' :: tail => some ('/' :: tail.takeWhile (fun c => !(c == '?' || c == '#')))
    | _ => some ['/']

/-- Modelled behaviour of `new URL(normalized).pathname` (aiService.ts:849-850)
for absolute `http://`/`https://` URLs (case-insensitive scheme), `none` when
the constructor throws.  Scope: other schemes, dot-segment normalization,
backslashes and percent-encoding are outside the modelled fragment — none
occur in the endpoints this development reasons about. -/
def parseUrlPathname (l : List Char) : Option (List Char) :=
  if "http://".data.isPrefixOf (l.map Char.toLower) then urlPathnameOf (l.drop 7)
  else if "https://".data.isPrefixOf (l.map Char.toLower) then urlPathnameOf (l.drop 8)
  else none

/-- `normalized.replace(/\/v1\/?$/, '')` (aiService.ts:854): remove a
trailing `/v1` or `/v1/`. -/
def stripV1Suffix (l : List Char) : List Char :=
  if "/v1/".data.isSuffixOf l then l.take (l.length - 4)
  else if "/v1".data.isSuffixOf l then l.take (l.length - 3)
  else l

/-- `normalized.replace(/\/chat\/?$/, '')` (aiService.ts:862): remove a
trailing `/chat` or `/chat/`. -/
def stripChatSuffix (l : List Char) : List Char :=
  if "/chat/".data.isSuffixOf l then l.take (l.length - 6)
  else if "/chat".data.isSuffixOf l then l.take (l.length - 5)
  else l

/-- `normalized.replace(/([^:])\/\//g, '$1/')` (aiService.ts:868): left-to-right
global scan; each non-colon character followed by `//` keeps the character and
one slash, and scanning resumes past the consumed three characters. -/
def fixDoubleSlash : List Char → List Char
  | c1 :: c2 :: c3 :: rest =>
    if c1 ≠ ':' ∧ c2 = '/' ∧ c3 = '/' then c1 :: '/' :: fixDoubleSlash rest
    else c1 :: fixDoubleSlash (c2 :: c3 :: rest)
  | l => l

/-- `AIService.normalizeEndpoint` (aiService.ts:815-871): trim; throw when
empty; prepend a scheme when none is present; strip trailing slashes; when no
known complete path occurs as a substring, complete the path according to the
parsed pathname (URL parse failure keeps the string as-is); finally collapse
non-protocol double slashes. -/
def normalizeEndpoint (url : String) : Except String String :=
  let normalized := jsTrimList url.data
  if normalized.isEmpty then .error "aiService.endpointEmpty"
  else
    let n1 :=
      if hasHttpScheme normalized then normalized
      else if "//".data.isPrefixOf normalized then "https:".data ++ normalized
      else if !(jsIncludes normalized "://".data) then "https://".data ++ normalized
      else normalized
    let n2 := stripTrailingSlashes n1
    let n3 :=
      if commonPaths.any (fun path => jsIncludes n2 path) then n2
      else
        match parseUrlPathname n2 with
        | none => n2
        | some pathname =>
          if pathname = "/v1".data ∨ pathname = "/v1/".data then
            stripV1Suffix n2 ++ "/v1/chat/completions".data
          else if pathname.isEmpty ∨ pathname = "/".data then
            n2 ++ "/v1/chat/completions".data
          else if pathname = "/chat".data ∨ pathname = "/chat/".data then
            stripChatSuffix n2 ++ "/chat/completions".data
          else n2
    .ok (String.mk (fixDoubleSlash n3))

/-- C7 counterexample: `normalizeEndpoint` is not idempotent on every URL.
On `"https://x.com//v1"` the pathname `"//v1"` matches no completion case, and
the final double-slash collapse turns the string into `"https://x.com/v1"`;
normalizing that output again appends `"/v1/chat/completions"`, so
`normalize (normalize u) ≠ normalize u` for this `u`. -/
theorem normalizeEndpoint_counterexample :
    normalizeEndpoint "https://x.com//v1" = .ok "https://x.com/v1" ∧
    normalizeEndpoint "https://x.com/v1" = .ok "https://x.com/v1/chat/completions" := by
  exact ⟨rfl, rfl⟩

/-- C7 (amended): the normalizer maps `"https://api.openai.com/v1"` to
`"https://api.openai.com/v1/chat/completions"` and `"https://x.com/"` to
`"https://x.com/v1/chat/completions"`, and re-normalizing these
already-complete outputs leaves them unchanged.  Idempotence does not hold
for every URL (see the counterexample): the double-slash collapse can expose
a path that a second pass then completes. -/
theorem normalizeEndpoint_maps :
    normalizeEndpoint "https://api.openai.com/v1" =
      .ok "https://api.openai.com/v1/chat/completions" ∧
    normalizeEndpoint "https://x.com/" = .ok "https://x.com/v1/chat/completions" ∧
    normalizeEndpoint "https://api.openai.com/v1/chat/completions" =
      .ok "https://api.openai.com/v1/chat/completions" ∧
    normalizeEndpoint "https://x.com/v1/chat/completions" =
      .ok "https://x.com/v1/chat/completions" := by
  exact ⟨rfl, rfl, rfl, rfl⟩

/-! ### Chat Completions response parsing
(`AIService.parseResponse`, `AIService.extractFileName`) -/

/-- One `replace(/OPEN[\s\S]*?CLOSE/gi, '')` pass (aiService.ts:633-638):
repeatedly find the first (case-insensitive) opening tag, the nearest closing
tag after it (non-greedy), remove the span, and resume after it.  The fuel
bounds the number of removals; callers pass the list length, which suffices
since every removal consumes at least one character. -/
def removeTagBlocks (openTag closeTag : List Char) : Nat → List Char → List Char
  | 0, l => l
  | fuel + 1, l =>
    match findSub openTag (l.map Char.toLower) with
    | none => l
    | some i =>
      match findSub closeTag ((l.drop (i + openTag.length)).map Char.toLower) with
      | none => l
      | some j =>
        l.take i ++
          removeTagBlocks openTag closeTag fuel
            (l.drop (i + openTag.length + j + closeTag.length))

/-- `String.prototype.split` against a delimiter recognizer that returns the
length of a delimiter match at the current position.  Fuel bounds the scan;
callers pass the list length, which suffices since every delimiter match here
consumes at least one character. -/
def splitByAux (recog : List Char → Option Nat) : Nat → List Char → List Char → List (List Char)
  | 0, l, acc => [acc.reverse ++ l]
  | fuel + 1, l, acc =>
    match l with
    | [] => [acc.reverse]
    | c :: rest =>
      match recog (c :: rest) with
      | some k => acc.reverse :: splitByAux recog fuel ((c :: rest).drop k) []
      | none => splitByAux recog fuel rest (c :: acc)

/-- `line.split(delimiter-regex)`. -/
def jsSplitBy (recog : List Char → Option Nat) (l : List Char) : List (List Char) :=
  splitByAux recog l.length l []

/-- Matcher for the delimiter regex `文件名[：:]` (four characters). -/
def recogFNMarker (l : List Char) : Option Nat :=
  if "文件名：".data.isPrefixOf l then some 4
  else if "文件名:".data.isPrefixOf l then some 4
  else none

/-- Matcher for the delimiter regex `/title:/i` (six characters,
case-insensitive). -/
def recogTitleMarker (l : List Char) : Option Nat :=
  if "title:".data.isPrefixOf (l.map Char.toLower) then some 6 else none

/-- `line.split(...)[1]?.trim() || line` (aiService.ts:646, 649): the trimmed
text after the first delimiter, falling back to the whole line when the
delimiter is absent or the remainder trims to the empty string. -/
def markerPick1 (recog : List Char → Option Nat) (ln : List Char) : List Char :=
  match (jsSplitBy recog ln)[1]? with
  | some seg => if (jsTrimList seg).isEmpty then ln else jsTrimList seg
  | none => ln

/-- The backwards loop of aiService.ts:643-652 over the non-empty trimmed
lines: applied to the reversed line list, finds the first line containing
`文件名：`/`文件名:` (else, case-insensitively, `title:`) and extracts the
text after the marker. -/
def pickMarked : List (List Char) → Option (List Char)
  | [] => none
  | ln :: rest =>
    if jsIncludes ln "文件名：".data || jsIncludes ln "文件名:".data then
      some (markerPick1 recogFNMarker ln)
    else if jsIncludes (ln.map Char.toLower) "title:".data then
      some (markerPick1 recogTitleMarker ln)
    else pickMarked rest

/-- `fileName.startsWith(a) && fileName.endsWith(b)`. -/
def wrappedIn (l : List Char) (a b : Char) : Bool :=
  l.head? == some a && l.getLast? == some b

/-- The quote-stripping step (aiService.ts:661-667): when the name is wrapped
in double quotes, single quotes (`Char.ofNat 39`), `《...》` or backticks
(`Char.ofNat 96`), take `substring(1, length - 1)`. -/
def stripWrappers (l : List Char) : List Char :=
  if wrappedIn l '"' '"' || wrappedIn l (Char.ofNat 39) (Char.ofNat 39) ||
      wrappedIn l '《' '》' || wrappedIn l (Char.ofNat 96) (Char.ofNat 96) then
    (l.drop 1).take (l.length - 2)
  else l

/-- `fileName.toLowerCase().endsWith('.md')` guarding
`substring(0, length - 3)` (aiService.ts:670-672). -/
def stripMdSuffix (l : List Char) : List Char :=
  if ".md".data.isSuffixOf (l.map Char.toLower) then l.take (l.length - 3) else l

/-- `fileName.replace(/^(文件名[：:]|Title:\s*)/i, '')` (aiService.ts:675):
one leading marker removed, with trailing `\s*` consumed after `Title:`. -/
def stripLeadingMarker (l : List Char) : List Char :=
  match recogFNMarker l with
  | some k => l.drop k
  | none =>
    match recogTitleMarker l with
    | some k => (l.drop k).dropWhile isJsWhitespace
    | none => l

/-- `AIService.extractFileName` (aiService.ts:624-688): strip think-tag blocks
(`<think>`, `<thinking>`, `【思考】`, `[思考]`) trimming after each pass; on
multi-line content prefer, scanning from the last line, the text after a
`文件名：`/`Title:` marker, else the last non-empty line when nothing changed;
strip wrapping quotes, a trailing `.md`, a leading marker; cap at 100
characters; trim; error when empty. -/
def extractFileName (content : String) : Except String String :=
  let c := content.data
  let p1 := jsTrimList (removeTagBlocks "<think>".data "</think>".data c.length c)
  let p2 := jsTrimList (removeTagBlocks "<thinking>".data "</thinking>".data p1.length p1)
  let p3 := jsTrimList (removeTagBlocks "【思考】".data "【/思考】".data p2.length p2)
  let p4 := jsTrimList (removeTagBlocks "[思考]".data "[/思考]".data p3.length p3)
  let lines := ((p4.splitOn '\n').map jsTrimList).filter (fun ln => !ln.isEmpty)
  let processed :=
    if 1 < lines.length then
      let pm :=
        match pickMarked lines.reverse with
        | some r => r
        | none => p4
      if pm = c then lines.getLast?.getD pm else pm
    else p4
  let f1 := stripWrappers processed
  let f2 := stripMdSuffix f1
  let f3 := jsTrimList (stripLeadingMarker f2)
  let f4 := if 100 < f3.length then f3.take 100 else f3
  let f5 := jsTrimList f4
  if f5.isEmpty then .error "aiService.emptyFileName" else .ok (String.mk f5)

/-- `choices[i].message` of a Chat Completions response. -/
structure ChatMessage where
  content : Option String := none
deriving DecidableEq, Repr

/-- One entry of `choices`. -/
structure ChatChoice where
  message : Option ChatMessage := none
deriving DecidableEq, Repr

/-- `APIResponse` as consumed by `AIService.parseResponse`. -/
structure APIResponse where
  choices : Option (List ChatChoice) := none
deriving DecidableEq, Repr

/-- `AIService.parseResponse` (aiService.ts:529-541): missing or empty
`choices` throws `missingChoices`; missing `message` or falsy `content` (the
empty string included) throws `missingContent`; otherwise the trimmed content
goes to `extractFileName`. -/
def parseResponse (response : APIResponse) : Except String String :=
  match response.choices with
  | none => .error "aiService.missingChoices"
  | some choices =>
    match choices with
    | [] => .error "aiService.missingChoices"
    | choice :: _ =>
      match choice.message with
      | none => .error "aiService.missingContent"
      | some msg =>
        match msg.content with
        | none => .error "aiService.missingContent"
        | some content =>
          if content = "" then .error "aiService.missingContent"
          else extractFileName (jsTrim content)

/-- C9: parsing `{choices: [{message: {content: "  Hello.md  "}}]}` yields
`"Hello"` — the whitespace is trimmed and the trailing `.md` stripped before
the name is returned. -/
theorem parseResponse_hello :
    parseResponse
      (APIResponse.mk (some [ChatChoice.mk (some (ChatMessage.mk (some "  Hello.md  ")))])) =
      .ok "Hello" := by
  exact rfl

end SmartWorkflow
